import Mathlib

/-!
Verification of the particle_bot market-data core.

This file gives a shallow embedding of the event model, the ring-buffer
utility, the multi-scale feature engine, the JSONL recorder, the feed
parsers and reconnect loops, the snapshot callback and the Monte-Carlo
path simulator, translated from the Python sources under
packages/particle_bot.  Machine floats are modelled as exact rationals
(ℚ); quantities whose source computation applies sqrt or exp are modelled
in ℝ.  Where the source only ever uses a standard deviation inside an
order comparison, the model compares the corresponding variances instead
(sqrt is monotone on nonnegative reals, so the comparisons agree); each
such place is marked in its doc comment.
-/

namespace PB

/-- Canonical instrument identifiers (types.py, class Symbol). -/
inductive Symbol
| BTC
| ETH
| SOL
deriving DecidableEq

/-- Trading venues (types.py, class Venue). -/
inductive Venue
| mock
| binance
| coinbase
| bybit
| okx
| deribit
| other
deriving DecidableEq

/-- Aggressor side of a trade (types.py, class TradeSide). -/
inductive TradeSide
| buy
| sell
| unknown
deriving DecidableEq

/-- Event kind tags (types.py, class EventType); named after the event
classes to keep Lean identifiers ascii-clean. -/
inductive EventType
| TradePrint
| BookDelta
| FundingTick
| OITick
| BasisTick
| LiquidationSnapshot
| OnchainSnapshot
| MacroSnapshot
deriving DecidableEq

/-- A Python datetime: `aware` is whether tzinfo is set (the code only ever
uses UTC, so an aware value is identified with its UTC reading), `micros`
is the timestamp in microseconds. -/
structure DateTime where
  aware : Bool
  micros : ℤ
deriving DecidableEq

/-- One price level of an order book (types.py, class BookLevel). -/
structure BookLevel where
  price : ℚ
  size : ℚ
deriving DecidableEq

/-- JSON-ish values as produced by pydantic `model_dump()` in python mode:
`jdt` is a raw `datetime` object left in the dict (json.dumps rejects it),
`jiso` is an ISO-8601 string represented by its parsed content (the ISO
rendering of an aware UTC datetime is in bijection with the datetime). -/
inductive JValue
| jnull
| jbool (b : Bool)
| jnum (q : ℚ)
| jstr (s : List Char)
| jdt (d : DateTime)
| jiso (d : DateTime)
| jarr (xs : List JValue)
| jobj (fs : List (List Char × JValue))

/-- Variant payload of an event (types.py, the subclasses of BaseEvent). -/
inductive EventData
| TradePrint (price size : ℚ) (side : TradeSide)
| BookDelta (bids asks : List BookLevel) (depthN : ℕ)
| FundingTick (fundingRate : ℚ) (nextFundingTs : Option DateTime)
| OITick (openInterest : ℚ)
| BasisTick (basis : ℚ) (basisType : List Char)
| LiquidationSnapshot (bands : List (ℚ × ℚ))
| OnchainSnapshot (metrics : List (List Char × ℚ))
| MacroSnapshot (metrics : List (List Char × ℚ))

/-- A market event (types.py, BaseEvent plus its concrete subclass fields). -/
structure Event where
  ts : DateTime
  recvTs : DateTime
  symbol : Symbol
  venue : Venue
  meta : List (List Char × JValue)
  data : EventData

/-- The event kind tag, determined by the concrete variant. -/
def Event.etype (ev : Event) : EventType :=
  match ev.data with
  | .TradePrint _ _ _ => .TradePrint
  | .BookDelta _ _ _ => .BookDelta
  | .FundingTick _ _ => .FundingTick
  | .OITick _ => .OITick
  | .BasisTick _ _ => .BasisTick
  | .LiquidationSnapshot _ => .LiquidationSnapshot
  | .OnchainSnapshot _ => .OnchainSnapshot
  | .MacroSnapshot _ => .MacroSnapshot

/-- utils/ringbuffer.py: a deque with a maximum length.  Appending to a
full deque evicts from the left. -/
structure RingBuffer where
  maxlen : ℕ
  buf : List ℚ

/-- A fresh ring buffer of the given capacity. -/
def RingBuffer.empty (n : ℕ) : RingBuffer := ⟨n, []⟩

/-- RingBuffer.append: push right; a full deque drops its oldest entry.
`(len + 1) - maxlen` is truncated subtraction, so a non-full buffer drops
nothing. -/
def RingBuffer.append (r : RingBuffer) (x : ℚ) : RingBuffer :=
  { r with buf := (r.buf ++ [x]).drop (r.buf.length + 1 - r.maxlen) }

/-- RingBuffer.values: the stored window, oldest first. -/
def RingBuffer.values (r : RingBuffer) : List ℚ := r.buf

theorem RingBuffer.append_maxlen (r : RingBuffer) (x : ℚ) :
    (r.append x).maxlen = r.maxlen := rfl

theorem RingBuffer.length_append_le (r : RingBuffer) (x : ℚ) :
    (r.append x).buf.length ≤ r.maxlen := by
  simp only [RingBuffer.append, List.length_drop, List.length_append,
    List.length_cons, List.length_nil]
  omega

/-- Scale names are plain strings; modelled as character lists. -/
abbrev ScaleName := List Char

/-- scales.py, class Scale (frozen dataclass with optional fields). -/
structure Scale where
  name : ScaleName
  tradeCount : Option ℕ := none
  sigmaWindowTrades : Option ℕ := none
  sigmaK : Option ℚ := none

def nmMicro : ScaleName := ['m', 'i', 'c', 'r', 'o']
def nmMinor : ScaleName := ['m', 'i', 'n', 'o', 'r']
def nmMajor : ScaleName := ['m', 'a', 'j', 'o', 'r']
def nmMacro : ScaleName := ['m', 'a', 'c', 'r', 'o']

def microScale : Scale := ⟨nmMicro, some 500, some 2000, some 1⟩
def minorScale : Scale := ⟨nmMinor, some 2000, some 5000, some (3 / 2)⟩
def majorScale : Scale := ⟨nmMajor, some 8000, some 15000, some 2⟩
def macroLvScale : Scale := ⟨nmMacro, some 30000, some 60000, some 3⟩

/-- scales.py, DEFAULT_SCALES. -/
def DEFAULT_SCALES : List Scale := [microScale, minorScale, majorScale, macroLvScale]

/-- features/mvp.py, class ScaleState. -/
structure ScaleState where
  prices : RingBuffer
  rets : RingBuffer
  sizes : RingBuffer
  signedSizes : RingBuffer
  cvd : ℚ := 0
  lastPrice : Option ℚ := none

/-- features/mvp.py, class DerivState. -/
structure DerivState where
  fundingHist : RingBuffer
  oiHist : RingBuffer
  basisHist : RingBuffer
  funding : ℚ := 0
  oi : ℚ := 0
  basis : ℚ := 0

/-- The last stored book snapshot per instrument
(`self.last_book[b.symbol]` in `_update_book`). -/
structure BookSnap where
  bids : List (ℚ × ℚ)
  asks : List (ℚ × ℚ)
  depthN : ℕ

/-- features/mvp.py, class MVPFeatureEngine's mutable state.  The Python
dicts are modelled as functions into Option. -/
structure Engine where
  scales : List Scale
  scaleStates : Symbol → ScaleName → Option ScaleState
  derivs : Symbol → Option DerivState
  lastBook : Symbol → Option BookSnap
  tradeCount : Symbol → ℕ

/-- `scale.trade_count or 2000`: Python `or` replaces both None and 0. -/
def scaleBufLen (sc : Scale) : ℕ :=
  match sc.tradeCount with
  | none => 2000
  | some 0 => 2000
  | some (n + 1) => n + 1

/-- The ScaleState built on first touch of an (instrument, scale) pair
(`_get_scale_state`, creation branch). -/
def freshScaleState (sc : Scale) : ScaleState :=
  let n := scaleBufLen sc
  ⟨.empty n, .empty n, .empty n, .empty n, 0, none⟩

/-- The DerivState built on first relevant tick (`_get_deriv_state`). -/
def freshDerivState : DerivState :=
  ⟨.empty 500, .empty 500, .empty 500, 0, 0, 0⟩

/-- A freshly constructed engine (MVPFeatureEngine.__init__). -/
def Engine.create (scales : List Scale) : Engine :=
  ⟨scales, fun _ _ => none, fun _ => none, fun _ => none, fun _ => 0⟩

/-- `_get_scale_state`, read side: the stored state or a fresh one. -/
def Engine.getScaleState (e : Engine) (sym : Symbol) (sc : Scale) : ScaleState :=
  (e.scaleStates sym sc.name).getD (freshScaleState sc)

/-- `_get_deriv_state`, read side. -/
def Engine.getDerivState (e : Engine) (sym : Symbol) : DerivState :=
  (e.derivs sym).getD freshDerivState

/-- Sign of a trade (`_update_trade`, the sign assignment). -/
def sideSign : TradeSide → ℚ
  | .buy => 1
  | .sell => -1
  | .unknown => 0

/-- `_update_trade`, body of the per-scale loop: return against the scale's
last recorded price (first trade of a scale sees ret = 0), the four buffer
appends, and the CVD accumulation. -/
def trUpdateState (price size sign : ℚ) (st : ScaleState) : ScaleState :=
  let lp := st.lastPrice.getD price
  let ret := price - lp
  { prices := st.prices.append price
    rets := st.rets.append ret
    sizes := st.sizes.append size
    signedSizes := st.signedSizes.append (sign * size)
    cvd := st.cvd + sign * size
    lastPrice := some price }

/-- One iteration of `_update_trade`'s `for scale in self.scales` loop on
the scale-state map. -/
def trFold (sym : Symbol) (price size sign : ℚ)
    (m : Symbol → ScaleName → Option ScaleState) (sc : Scale) :
    Symbol → ScaleName → Option ScaleState :=
  let st := (m sym sc.name).getD (freshScaleState sc)
  fun s n =>
    if s = sym ∧ n = sc.name then some (trUpdateState price size sign st) else m s n

/-- `MVPFeatureEngine._update_trade`. -/
def Engine.updateTrade (e : Engine) (sym : Symbol) (price size : ℚ) (side : TradeSide) :
    Engine :=
  { e with
    tradeCount := fun s => if s = sym then e.tradeCount s + 1 else e.tradeCount s
    scaleStates := e.scales.foldl (trFold sym price size (sideSign side)) e.scaleStates }

/-- `MVPFeatureEngine._update_book`: store only the latest snapshot. -/
def Engine.updateBook (e : Engine) (sym : Symbol)
    (bids asks : List BookLevel) (depthN : ℕ) : Engine :=
  { e with
    lastBook := fun s =>
      if s = sym then
        some ⟨bids.map (fun l => (l.price, l.size)), asks.map (fun l => (l.price, l.size)), depthN⟩
      else e.lastBook s }

/-- `MVPFeatureEngine._update_funding`. -/
def Engine.updateFunding (e : Engine) (sym : Symbol) (rate : ℚ) : Engine :=
  let d := e.getDerivState sym
  let d2 := { d with funding := rate, fundingHist := d.fundingHist.append rate }
  { e with derivs := fun s => if s = sym then some d2 else e.derivs s }

/-- `MVPFeatureEngine._update_oi`. -/
def Engine.updateOi (e : Engine) (sym : Symbol) (x : ℚ) : Engine :=
  let d := e.getDerivState sym
  let d2 := { d with oi := x, oiHist := d.oiHist.append x }
  { e with derivs := fun s => if s = sym then some d2 else e.derivs s }

/-- `MVPFeatureEngine._update_basis`. -/
def Engine.updateBasis (e : Engine) (sym : Symbol) (b : ℚ) : Engine :=
  let d := e.getDerivState sym
  let d2 := { d with basis := b, basisHist := d.basisHist.append b }
  { e with derivs := fun s => if s = sym then some d2 else e.derivs s }

/-- `MVPFeatureEngine.update`: dispatch on the event kind; pass-through
kinds are ignored. -/
def Engine.update (e : Engine) (ev : Event) : Engine :=
  match ev.data with
  | .TradePrint price size side => e.updateTrade ev.symbol price size side
  | .BookDelta bids asks dn => e.updateBook ev.symbol bids asks dn
  | .FundingTick r _ => e.updateFunding ev.symbol r
  | .OITick x => e.updateOi ev.symbol x
  | .BasisTick b _ => e.updateBasis ev.symbol b
  | .LiquidationSnapshot _ => e
  | .OnchainSnapshot _ => e
  | .MacroSnapshot _ => e

/-- Feeding a finite event sequence through the engine in order. -/
def Engine.processAll (e : Engine) (evs : List Event) : Engine :=
  evs.foldl Engine.update e

/-- Contribution of one event to the running signed-size total of an
instrument: +size for a buy, -size for a sell, 0 for unknown side, 0 for
other instruments and other kinds. -/
def tradeContribution (sym : Symbol) (ev : Event) : ℚ :=
  if ev.symbol = sym then
    match ev.data with
    | .TradePrint _ size side => sideSign side * size
    | _ => 0
  else 0

/-- Running sum of signed trade sizes of an instrument over a sequence. -/
def signedSizeSum (evs : List Event) (sym : Symbol) : ℚ :=
  (evs.map (tradeContribution sym)).sum

theorem trFold_at_self (sym : Symbol) (p q g : ℚ)
    (m : Symbol → ScaleName → Option ScaleState) (sc : Scale) :
    trFold sym p q g m sc sym sc.name
      = some (trUpdateState p q g ((m sym sc.name).getD (freshScaleState sc))) := by
  simp [trFold]

theorem trFold_other_name (sym : Symbol) (p q g : ℚ)
    (m : Symbol → ScaleName → Option ScaleState) (sc : Scale)
    (s : Symbol) (n : ScaleName) (h : n ≠ sc.name) :
    trFold sym p q g m sc s n = m s n := by
  simp [trFold, h]

theorem trFold_other_symbol (sym : Symbol) (p q g : ℚ)
    (m : Symbol → ScaleName → Option ScaleState) (sc : Scale)
    (s : Symbol) (n : ScaleName) (h : s ≠ sym) :
    trFold sym p q g m sc s n = m s n := by
  simp [trFold, h]

theorem trFold_list_no_name (sym : Symbol) (p q g : ℚ) (scs : List Scale)
    (m : Symbol → ScaleName → Option ScaleState)
    (s : Symbol) (n : ScaleName) (h : ∀ sc ∈ scs, n ≠ sc.name) :
    scs.foldl (trFold sym p q g) m s n = m s n := by
  induction scs generalizing m with
  | nil => rfl
  | cons hd tl ih =>
    simp only [List.foldl_cons]
    rw [ih _ fun sc hsc => h sc (List.mem_cons_of_mem hd hsc)]
    exact trFold_other_name sym p q g m hd s n (h hd (List.mem_cons_self hd tl))

theorem trFold_list_other_symbol (sym : Symbol) (p q g : ℚ) (scs : List Scale)
    (m : Symbol → ScaleName → Option ScaleState)
    (s : Symbol) (n : ScaleName) (h : s ≠ sym) :
    scs.foldl (trFold sym p q g) m s n = m s n := by
  induction scs generalizing m with
  | nil => rfl
  | cons hd tl ih =>
    simp only [List.foldl_cons]
    rw [ih]
    exact trFold_other_symbol sym p q g m hd s n h

/-- After the per-scale loop of `_update_trade`, the entry of a configured
scale (with pairwise-distinct configured names) holds exactly the stepped
previous state. -/
theorem trFold_list_at_member (sym : Symbol) (p q g : ℚ) (scs : List Scale)
    (m : Symbol → ScaleName → Option ScaleState) (sc : Scale)
    (hmem : sc ∈ scs) (hnd : (scs.map Scale.name).Nodup) :
    scs.foldl (trFold sym p q g) m sym sc.name
      = some (trUpdateState p q g ((m sym sc.name).getD (freshScaleState sc))) := by
  induction scs generalizing m with
  | nil => cases hmem
  | cons hd tl ih =>
    simp only [List.map_cons, List.nodup_cons] at hnd
    rcases List.mem_cons.mp hmem with hEq | hTl
    · subst hEq
      simp only [List.foldl_cons]
      rw [trFold_list_no_name]
      · exact trFold_at_self sym p q g m sc
      · intro sc2 hsc2 hn
        exact hnd.1 (hn ▸ List.mem_map_of_mem Scale.name hsc2)
    · simp only [List.foldl_cons]
      rw [ih _ hTl hnd.2]
      have hne : sc.name ≠ hd.name := by
        intro hn
        exact hnd.1 (hn ▸ List.mem_map_of_mem Scale.name hTl)
      rw [trFold_other_name sym p q g m hd sym sc.name hne]

theorem getScaleState_update_trade (e : Engine) (sym s : Symbol) (sc : Scale)
    (p q : ℚ) (side : TradeSide)
    (hmem : sc ∈ e.scales) (hnd : (e.scales.map Scale.name).Nodup) :
    (e.updateTrade s p q side).getScaleState sym sc
      = if s = sym then trUpdateState p q (sideSign side) (e.getScaleState sym sc)
        else e.getScaleState sym sc := by
  by_cases hs : s = sym
  · subst hs
    simp only [Engine.updateTrade, Engine.getScaleState, if_pos rfl]
    rw [trFold_list_at_member s p q (sideSign side) e.scales e.scaleStates sc hmem hnd]
    rfl
  · simp only [Engine.updateTrade, Engine.getScaleState, if_neg hs]
    rw [trFold_list_other_symbol s p q (sideSign side) e.scales e.scaleStates sym sc.name
      (fun hc => hs hc.symm)]

theorem cvd_trUpdateState (p q g : ℚ) (st : ScaleState) :
    (trUpdateState p q g st).cvd = st.cvd + g * q := rfl

theorem scales_update (e : Engine) (ev : Event) : (e.update ev).scales = e.scales := by
  cases ev with
  | mk ts recvTs symbol venue meta data =>
    cases data <;> rfl

/-- One engine step adds exactly the event's signed-size contribution to
the CVD of every configured scale of the event's instrument. -/
theorem cvd_update_step (e : Engine) (ev : Event) (sym : Symbol) (sc : Scale)
    (hmem : sc ∈ e.scales) (hnd : (e.scales.map Scale.name).Nodup) :
    ((e.update ev).getScaleState sym sc).cvd
      = (e.getScaleState sym sc).cvd + tradeContribution sym ev := by
  cases ev with
  | mk ts recvTs symbol venue meta data =>
    cases data with
    | TradePrint price size side =>
      show ((e.updateTrade symbol price size side).getScaleState sym sc).cvd = _
      rw [getScaleState_update_trade e sym symbol sc price size side hmem hnd]
      by_cases hs : symbol = sym
      · simp [hs, cvd_trUpdateState, tradeContribution]
      · simp [hs, tradeContribution, fun h => hs h]
    | BookDelta bids asks dn => simp [Engine.update, Engine.updateBook,
        Engine.getScaleState, tradeContribution]
    | FundingTick r o => simp [Engine.update, Engine.updateFunding,
        Engine.getScaleState, tradeContribution]
    | OITick x => simp [Engine.update, Engine.updateOi,
        Engine.getScaleState, tradeContribution]
    | BasisTick b t => simp [Engine.update, Engine.updateBasis,
        Engine.getScaleState, tradeContribution]
    | LiquidationSnapshot bands => simp [Engine.update, tradeContribution]
    | OnchainSnapshot ms => simp [Engine.update, tradeContribution]
    | MacroSnapshot ms => simp [Engine.update, tradeContribution]

theorem cvd_processAll (e : Engine) (evs : List Event) (sym : Symbol) (sc : Scale)
    (hmem : sc ∈ e.scales) (hnd : (e.scales.map Scale.name).Nodup) :
    ((e.processAll evs).getScaleState sym sc).cvd
      = (e.getScaleState sym sc).cvd + signedSizeSum evs sym := by
  induction evs generalizing e with
  | nil => simp [Engine.processAll, signedSizeSum]
  | cons ev tl ih =>
    have hm2 : sc ∈ (e.update ev).scales := by rw [scales_update]; exact hmem
    have hn2 : ((e.update ev).scales.map Scale.name).Nodup := by
      rw [scales_update]; exact hnd
    calc ((e.processAll (ev :: tl)).getScaleState sym sc).cvd
        = (((e.update ev).processAll tl).getScaleState sym sc).cvd := rfl
      _ = ((e.update ev).getScaleState sym sc).cvd + signedSizeSum tl sym :=
          ih (e.update ev) hm2 hn2
      _ = (e.getScaleState sym sc).cvd + tradeContribution sym ev + signedSizeSum tl sym := by
          rw [cvd_update_step e ev sym sc hmem hnd]
      _ = (e.getScaleState sym sc).cvd + signedSizeSum (ev :: tl) sym := by
          simp [signedSizeSum]
          ring

/-- A concrete BTC trade. -/
def btcTradeEvent : Event :=
  ⟨⟨true, 1700000000000000⟩, ⟨true, 1700000000100000⟩, Symbol.BTC, Venue.binance,
    [], .TradePrint 35000 1 TradeSide.buy⟩

/-- A concrete ETH trade. -/
def ethTradeEvent : Event :=
  ⟨⟨true, 1700000000000000⟩, ⟨true, 1700000000100000⟩, Symbol.ETH, Venue.binance,
    [], .TradePrint 2000 3 TradeSide.buy⟩

/-- C1.  For every (instrument, scale) pair with the scale configured (its
name unique among the configured scales), after the feature engine
processes any finite sequence of events the ScaleState field cvd equals
the exact running sum of signed trade sizes of all TradePrint events
processed for that instrument since engine creation: a buy contributes
+size, a sell contributes -size, an unknown side contributes 0. -/
theorem C1_cvd_equals_signed_size_sum (scales : List Scale) (evs : List Event)
    (sym : Symbol) (sc : Scale)
    (hmem : sc ∈ scales) (hnd : (scales.map Scale.name).Nodup) :
    (((Engine.create scales).processAll evs).getScaleState sym sc).cvd
      = signedSizeSum evs sym := by
  have h := cvd_processAll (Engine.create scales) evs sym sc hmem hnd
  simpa [Engine.create, Engine.getScaleState, freshScaleState] using h

theorem C1_cvd_equals_signed_size_sum_witness :
    microScale ∈ DEFAULT_SCALES ∧ (DEFAULT_SCALES.map Scale.name).Nodup ∧
    (((Engine.create DEFAULT_SCALES).processAll
        [btcTradeEvent, ethTradeEvent, btcTradeEvent]).getScaleState Symbol.BTC
      microScale).cvd
      = signedSizeSum [btcTradeEvent, ethTradeEvent, btcTradeEvent] Symbol.BTC :=
  ⟨List.mem_cons_self _ _, by decide,
    C1_cvd_equals_signed_size_sum DEFAULT_SCALES
      [btcTradeEvent, ethTradeEvent, btcTradeEvent] Symbol.BTC microScale
      (List.mem_cons_self _ _) (by decide)⟩

/-- Invariant of a scale-state map entry: the four ring buffers were built
with capacity `n` and never hold more than `n` entries. -/
def entryBounded (n : ℕ) : Option ScaleState → Prop
  | none => True
  | some st =>
      st.prices.maxlen = n ∧ st.rets.maxlen = n ∧ st.sizes.maxlen = n ∧
      st.signedSizes.maxlen = n ∧
      st.prices.buf.length ≤ n ∧ st.rets.buf.length ≤ n ∧
      st.sizes.buf.length ≤ n ∧ st.signedSizes.buf.length ≤ n

theorem entryBounded_fresh (sc : Scale) :
    entryBounded (scaleBufLen sc) (some (freshScaleState sc)) := by
  simp [entryBounded, freshScaleState, RingBuffer.empty]

theorem entryBounded_some (n : ℕ) (st : ScaleState)
    (h1 : st.prices.maxlen = n) (h2 : st.rets.maxlen = n)
    (h3 : st.sizes.maxlen = n) (h4 : st.signedSizes.maxlen = n)
    (p q g : ℚ) :
    entryBounded n (some (trUpdateState p q g st)) := by
  refine ⟨?_, ?_, ?_, ?_, ?_, ?_, ?_, ?_⟩ <;>
    simp [trUpdateState, RingBuffer.append_maxlen, h1, h2, h3, h4,
      h1 ▸ RingBuffer.length_append_le st.prices p,
      h2 ▸ RingBuffer.length_append_le st.rets (p - st.lastPrice.getD p),
      h3 ▸ RingBuffer.length_append_le st.sizes q,
      h4 ▸ RingBuffer.length_append_le st.signedSizes (g * q)]

theorem entryBounded_step (sc : Scale) (p q g : ℚ) (o : Option ScaleState)
    (h : entryBounded (scaleBufLen sc) o) :
    entryBounded (scaleBufLen sc)
      (some (trUpdateState p q g (o.getD (freshScaleState sc)))) := by
  cases o with
  | none =>
    exact entryBounded_some _ _ rfl rfl rfl rfl p q g
  | some st =>
    obtain ⟨h1, h2, h3, h4, _, _, _, _⟩ := h
    exact entryBounded_some _ st h1 h2 h3 h4 p q g

theorem entryBounded_update (e : Engine) (ev : Event) (sym : Symbol) (sc : Scale)
    (hmem : sc ∈ e.scales) (hnd : (e.scales.map Scale.name).Nodup)
    (h : entryBounded (scaleBufLen sc) (e.scaleStates sym sc.name)) :
    entryBounded (scaleBufLen sc) ((e.update ev).scaleStates sym sc.name) := by
  cases ev with
  | mk ts recvTs symbol venue meta data =>
    cases data with
    | TradePrint price size side =>
      show entryBounded _ ((e.updateTrade symbol price size side).scaleStates sym sc.name)
      by_cases hs : symbol = sym
      · subst hs
        show entryBounded _
          ((e.scales.foldl (trFold symbol price size (sideSign side)) e.scaleStates)
            symbol sc.name)
        rw [trFold_list_at_member symbol price size (sideSign side) e.scales
          e.scaleStates sc hmem hnd]
        exact entryBounded_step sc price size (sideSign side) _ h
      · show entryBounded _
          ((e.scales.foldl (trFold symbol price size (sideSign side)) e.scaleStates)
            sym sc.name)
        rw [trFold_list_other_symbol symbol price size (sideSign side) e.scales
          e.scaleStates sym sc.name (fun hc => hs hc.symm)]
        exact h
    | BookDelta bids asks dn => exact h
    | FundingTick r o => exact h
    | OITick x => exact h
    | BasisTick b t => exact h
    | LiquidationSnapshot bands => exact h
    | OnchainSnapshot ms => exact h
    | MacroSnapshot ms => exact h

theorem entryBounded_processAll (e : Engine) (evs : List Event) (sym : Symbol)
    (sc : Scale) (hmem : sc ∈ e.scales) (hnd : (e.scales.map Scale.name).Nodup)
    (h : entryBounded (scaleBufLen sc) (e.scaleStates sym sc.name)) :
    entryBounded (scaleBufLen sc) ((e.processAll evs).scaleStates sym sc.name) := by
  induction evs generalizing e with
  | nil => exact h
  | cons ev tl ih =>
    have hm2 : sc ∈ (e.update ev).scales := by rw [scales_update]; exact hmem
    have hn2 : ((e.update ev).scales.map Scale.name).Nodup := by
      rw [scales_update]; exact hnd
    exact ih (e.update ev) hm2 hn2 (entryBounded_update e ev sym sc hmem hnd h)

/-- C2.  For every instrument and every configured scale with a positive
configured window `k = scale.trade_count` (names pairwise distinct), after
the feature engine processes any finite sequence of events, the per-scale
price, return, size and signed-size ring buffers of that (instrument,
scale) ScaleState hold at most `k` entries. -/
theorem C2_ring_buffers_bounded (scales : List Scale) (evs : List Event)
    (sym : Symbol) (sc : Scale) (k : ℕ)
    (hmem : sc ∈ scales) (hnd : (scales.map Scale.name).Nodup)
    (hk : sc.tradeCount = some k) (hkpos : 0 < k) :
    let st := ((Engine.create scales).processAll evs).getScaleState sym sc
    st.prices.values.length ≤ k ∧ st.rets.values.length ≤ k ∧
    st.sizes.values.length ≤ k ∧ st.signedSizes.values.length ≤ k := by
  have hlen : scaleBufLen sc = k := by
    cases k with
    | zero => cases hkpos
    | succ k0 => simp [scaleBufLen, hk]
  have hinv := entryBounded_processAll (Engine.create scales) evs sym sc hmem hnd
    (by simp [Engine.create, entryBounded])
  intro st
  show st.prices.buf.length ≤ k ∧ st.rets.buf.length ≤ k ∧
    st.sizes.buf.length ≤ k ∧ st.signedSizes.buf.length ≤ k
  have hst : st = (((Engine.create scales).processAll evs).scaleStates sym
      sc.name).getD (freshScaleState sc) := rfl
  cases hoc : ((Engine.create scales).processAll evs).scaleStates sym sc.name with
  | none =>
    rw [hst, hoc]
    simp [freshScaleState, RingBuffer.empty]
  | some stv =>
    rw [hoc] at hinv
    obtain ⟨_, _, _, _, g1, g2, g3, g4⟩ := hinv
    rw [hst, hoc]
    exact ⟨hlen ▸ g1, hlen ▸ g2, hlen ▸ g3, hlen ▸ g4⟩

theorem C2_ring_buffers_bounded_witness :
    microScale ∈ DEFAULT_SCALES ∧ (DEFAULT_SCALES.map Scale.name).Nodup ∧
    microScale.tradeCount = some 500 ∧ 0 < 500 ∧
    (let st := ((Engine.create DEFAULT_SCALES).processAll
        [ethTradeEvent, ethTradeEvent]).getScaleState Symbol.ETH microScale
     st.prices.values.length ≤ 500 ∧ st.rets.values.length ≤ 500 ∧
     st.sizes.values.length ≤ 500 ∧ st.signedSizes.values.length ≤ 500) :=
  ⟨List.mem_cons_self _ _, by decide, rfl, by decide,
    C2_ring_buffers_bounded DEFAULT_SCALES [ethTradeEvent, ethTradeEvent]
      Symbol.ETH microScale 500
      (List.mem_cons_self _ _) (by decide) rfl (by decide)⟩

/-- utils/stats.py mean: `sum(xs) / max(len(xs), 1)`. -/
def pyMean (xs : List ℚ) : ℚ := xs.sum / ((max xs.length 1 : ℕ) : ℚ)

/-- np.mean: `sum / n` (only applied to nonempty arrays in the source). -/
def npMean (xs : List ℚ) : ℚ := xs.sum / ((xs.length : ℕ) : ℚ)

/-- The sample variance computed inside utils/stats.py stdev (divisor
n - 1, zero for fewer than two samples); `stdev = sqrt (max var 0)`, and
`var` is a sum of squares over a positive divisor, so the max is the
identity (sampleVar_nonneg below). -/
def sampleVar (xs : List ℚ) : ℚ :=
  if xs.length < 2 then 0
  else ((xs.map (fun x => (x - npMean xs) ^ 2)).sum) / ((xs.length : ℚ) - 1)

/-- The population variance computed by numpy `.std()` squared (divisor
n); the source only takes `.std()` of nonempty arrays. -/
def popVar (xs : List ℚ) : ℚ :=
  if xs.length = 0 then 0
  else ((xs.map (fun x => (x - npMean xs) ^ 2)).sum) / ((xs.length : ℕ) : ℚ)

theorem sampleVar_nonneg (xs : List ℚ) : 0 ≤ sampleVar xs := by
  unfold sampleVar
  split
  · exact le_refl 0
  · rename_i h
    apply div_nonneg
    · exact List.sum_nonneg fun x hx => by
        obtain ⟨y, _, hy⟩ := List.mem_map.mp hx
        exact hy ▸ sq_nonneg _
    · have : 2 ≤ xs.length := Nat.not_lt.mp h
      have : (2 : ℚ) ≤ (xs.length : ℚ) := by exact_mod_cast this
      linarith

theorem popVar_nonneg (xs : List ℚ) : 0 ≤ popVar xs := by
  unfold popVar
  split
  · exact le_refl 0
  · apply div_nonneg
    · exact List.sum_nonneg fun x hx => by
        obtain ⟨y, _, hy⟩ := List.mem_map.mp hx
        exact hy ▸ sq_nonneg _
    · positivity

/-- utils/stats.py clamp. -/
def clampQ (x lo hi : ℚ) : ℚ := max lo (min hi x)

/-- Python slice `xs[-n:]`. -/
def lastN (n : ℕ) (xs : List ℚ) : List ℚ := xs.drop (xs.length - n)

/-- The epsilon `1e-9` used by the snapshot guards, as an exact rational. -/
def eps9 : ℚ := 1 / 1000000000

/-- The epsilon `1e-12` used by utils/stats.py zscore. -/
def eps12 : ℚ := 1 / 1000000000000

/-- Python `range(0, stop, step)` for positive step. -/
def rangeStep (stop step : ℕ) : List ℕ :=
  (List.range ((stop + step - 1) / step)).map (· * step)

/-- mvp.py snapshot, the `vol_hist` loop: rolling 200-return standard
deviation samples taken every 50 returns, collected only when the stored
return window holds more than 600 returns.  The samples are represented
by their variances (see the header comment on variance comparison). -/
def volHistVars (rets : List ℚ) : List ℚ :=
  if 600 < rets.length then
    (rangeStep (rets.length - 200) 50).map (fun i => popVar ((rets.drop i).take 200))
  else []

/-- np.searchsorted(a, v, side="right") for a sorted array `a`: the
insertion index, i.e. the number of entries ≤ v. -/
def searchsortedRight (xs : List ℚ) (v : ℚ) : ℕ :=
  xs.countP (fun x => decide (x ≤ v))

/-- Python `sorted()`: a stable ascending sort. -/
def pySorted (xs : List ℚ) : List ℚ := xs.insertionSort (· ≤ ·)

/-- mvp.py snapshot, `vol_percentile`: the right-insertion rank of the
current return stdev among the rolling samples over the sample count, 0.5
when no samples were collected.  Comparisons of standard deviations are
represented by comparisons of their variances. -/
def volPercentileOf (rets : List ℚ) : ℚ :=
  let vh := volHistVars rets
  if vh.isEmpty then 1 / 2
  else ((searchsortedRight (pySorted vh) (sampleVar rets) : ℕ) : ℚ) / ((vh.length : ℕ) : ℚ)

/-- np.cumsum. -/
def cumsum (xs : List ℚ) : List ℚ := (xs.scanl (· + ·) 0).tail

/-- mvp.py snapshot, `cvd_slope`: degree-1 np.polyfit (least squares) of
the cumulative signed sizes of the last 300 samples against the step
index, in closed form; 0 for 50 or fewer samples. -/
def cvdSlopeOf (ssz : List ℚ) : ℚ :=
  if 50 < ssz.length then
    let y := cumsum (lastN 300 ssz)
    let n : ℚ := ((y.length : ℕ) : ℚ)
    let xs := (List.range y.length).map (fun i => ((i : ℕ) : ℚ))
    (n * ((xs.zip y).map (fun p => p.1 * p.2)).sum - xs.sum * y.sum)
      / (n * (xs.map (fun v => v ^ 2)).sum - xs.sum ^ 2)
  else 0

/-- Population covariance of two equal-length samples (the numerator
normalization used by np.corrcoef). -/
def covPop (a b : List ℚ) : ℚ :=
  ((a.zip b).map (fun p => (p.1 - npMean a) * (p.2 - npMean b))).sum / ((a.length : ℕ) : ℚ)

/-- mvp.py snapshot, `tail_risk` body: fraction of the last 500 returns
with |ret| > 2 * ret_sd; the comparison is represented by
ret^2 > 4 * var (both sides of the original comparison are nonnegative). -/
def tailFracOf (rets : List ℚ) (retVar : ℚ) : ℚ :=
  let arr := lastN 500 rets
  ((arr.countP (fun x => decide (4 * retVar < x ^ 2)) : ℕ) : ℚ) / ((arr.length : ℕ) : ℚ)

/-- mvp.py snapshot, `basis_percentile`. -/
def basisPercentileOf (basisVals : List ℚ) (basis : ℚ) : ℚ :=
  if basisVals.isEmpty then 1 / 2
  else ((searchsortedRight (pySorted basisVals) basis : ℕ) : ℚ) / ((basisVals.length : ℕ) : ℚ)

/-- mvp.py snapshot, `book_imbalance`: top-10 bid depth against top-10 ask
depth of the last stored book snapshot, 0 when none was stored. -/
def bookImbalanceOf (bk : Option BookSnap) : ℚ :=
  match bk with
  | none => 0
  | some b =>
      let bidDepth := ((b.bids.take 10).map Prod.snd).sum
      let askDepth := ((b.asks.take 10).map Prod.snd).sum
      (bidDepth - askDepth) / (bidDepth + askDepth + eps9)

noncomputable section

/-- utils/stats.py stdev: sqrt of max(sample variance, 0). -/
def stdevR (xs : List ℚ) : ℝ :=
  if xs.length < 2 then 0 else Real.sqrt (max ((sampleVar xs : ℚ) : ℝ) 0)

/-- utils/stats.py zscore with its default eps = 1e-12. -/
def zscoreR (x mu : ℚ) (sd : ℝ) : ℝ := ((x - mu : ℚ) : ℝ) / max sd ((eps12 : ℚ) : ℝ)

/-- clamp on ℝ. -/
def clampR (x lo hi : ℝ) : ℝ := max lo (min hi x)

/-- mvp.py snapshot, `mr_score`: lag-1 autocorrelation of the last 200
returns mapped through (1 - corr) / 2, guarded by window length > 20 and
both halves having std above 1e-9 (represented as variance above
(1e-9)^2). -/
def mrScoreOf (rets : List ℚ) : ℝ :=
  if 20 < rets.length then
    let r := lastN 200 rets
    let r1 := r.dropLast
    let r2 := r.tail
    if eps9 ^ 2 < popVar r1 ∧ eps9 ^ 2 < popVar r2 then
      let corr : ℝ :=
        ((covPop r1 r2 : ℚ) : ℝ)
          / (Real.sqrt ((popVar r1 : ℚ) : ℝ) * Real.sqrt ((popVar r2 : ℚ) : ℝ))
      clampR ((-corr + 1) / 2) 0 1
    else 0
  else 0

/-- The feature map returned by `MVPFeatureEngine.snapshot` (the `scale`
name entry is omitted; quantities whose source computation stays in
field-free rational arithmetic are ℚ, those passing through sqrt or exp
are ℝ). -/
structure FeatureSnap where
  nTrades : ℕ
  lastPrice : Option ℚ
  retSd : ℝ
  directionalStrength : ℝ
  meanReversionScore : ℝ
  tailRisk : ℚ
  volPercentile : ℚ
  breakoutProb : ℝ
  cvdSlope : ℚ
  progressSigma : ℝ
  volMult : ℚ
  funding : ℚ
  fundingZ : ℝ
  oi : ℚ
  oiZ : ℝ
  basis : ℚ
  basisZ : ℝ
  basisPercentile : ℚ
  squeezeScore : ℝ
  deleveragingScore : ℝ
  impulseScore : ℝ
  exhaustionScore : ℝ
  stoprunScore : ℚ
  bookImbalance : ℚ

/-- `MVPFeatureEngine.snapshot`, translated clause by clause from
mvp.py lines 120-254. -/
def Engine.snapshot (e : Engine) (sym : Symbol) (sc : Scale) : FeatureSnap :=
  let st := e.getScaleState sym sc
  let d := e.getDerivState sym
  let prices := st.prices.values
  let rets := st.rets.values
  let sizes := st.sizes.values
  let ssz := st.signedSizes.values
  let retVar := sampleVar rets
  let retSd := stdevR rets
  let retMu := pyMean rets
  let dirStrength : ℝ := 1 - Real.exp (-(((|retMu| : ℚ) : ℝ) / (retSd + ((eps9 : ℚ) : ℝ))))
  let volPct := volPercentileOf rets
  let tail : ℚ := if 50 < rets.length ∧ eps9 ^ 2 < retVar then tailFracOf rets retVar else 0
  let volMult : ℚ :=
    if 100 < sizes.length then (pyMean (lastN 50 sizes) + eps9) / (pyMean sizes + eps9) else 1
  let fundingZ := zscoreR d.funding (pyMean d.fundingHist.values) (stdevR d.fundingHist.values)
  let oiZ := zscoreR d.oi (pyMean d.oiHist.values) (stdevR d.oiHist.values)
  let basisZ := zscoreR d.basis (pyMean d.basisHist.values) (stdevR d.basisHist.values)
  let cvdSl := cvdSlopeOf ssz
  { nTrades := prices.length
    lastPrice := if prices.isEmpty then none else some (prices.getLastD 0)
    retSd := retSd
    directionalStrength := dirStrength
    meanReversionScore := mrScoreOf rets
    tailRisk := tail
    volPercentile := volPct
    breakoutProb := clampR ((1 - ((volPct : ℚ) : ℝ)) * dirStrength) 0 1
    cvdSlope := cvdSl
    progressSigma :=
      if 10 < prices.length then
        ((|prices.getLastD 0 - prices.headD 0| : ℚ) : ℝ)
          / (retSd * Real.sqrt (((max prices.length 1 : ℕ) : ℕ) : ℝ) + ((eps9 : ℚ) : ℝ))
      else 0
    volMult := volMult
    funding := d.funding
    fundingZ := fundingZ
    oi := d.oi
    oiZ := oiZ
    basis := d.basis
    basisZ := basisZ
    basisPercentile := basisPercentileOf d.basisHist.values d.basis
    squeezeScore := clampR ((|fundingZ| + max 0 oiZ) / 4) 0 1
    deleveragingScore := clampR (max 0 (-oiZ) * (1 / 2) + ((tail : ℚ) : ℝ)) 0 1
    impulseScore :=
      clampR (dirStrength * ((|cvdSl| : ℚ) : ℝ) / (((pyMean sizes + eps9 : ℚ) : ℝ)) / 10) 0 1
    exhaustionScore := clampR ((1 - dirStrength) * ((tail : ℚ) : ℝ)) 0 1
    stoprunScore := clampQ (tail * volMult) 0 1
    bookImbalance := bookImbalanceOf (e.lastBook sym) }

end

/-- Modelled from the claim's words: the percentile rank (right-sided
insertion count over sample count) of the current return stdev among
rolling 200-return stdev samples taken every 50 returns across the full
return window, required window AT LEAST 600 returns, else the 0.5
default.  Stdev comparisons represented by variance comparisons. -/
def volPercentileClaimSpec (rets : List ℚ) : ℚ :=
  if 600 ≤ rets.length then
    let samples := (rangeStep (rets.length - 200) 50).map (fun i => popVar ((rets.drop i).take 200))
    ((samples.countP (fun v => decide (v ≤ sampleVar rets)) : ℕ) : ℚ) / ((samples.length : ℕ) : ℚ)
  else 1 / 2

/-- The claim amended at its boundary: as volPercentileClaimSpec but the
rolling samples exist only when the window holds MORE than 600 returns
(at least 601); with 600 or fewer returns the 0.5 default applies. -/
def volPercentileAmendedSpec (rets : List ℚ) : ℚ :=
  if 600 < rets.length then
    let samples := (rangeStep (rets.length - 200) 50).map (fun i => popVar ((rets.drop i).take 200))
    ((samples.countP (fun v => decide (v ≤ sampleVar rets)) : ℕ) : ℚ) / ((samples.length : ℕ) : ℚ)
  else 1 / 2

theorem snapshot_volPercentile (e : Engine) (sym : Symbol) (sc : Scale) :
    (Engine.snapshot e sym sc).volPercentile
      = volPercentileOf (e.getScaleState sym sc).rets.values := rfl

theorem countP_pySorted (xs : List ℚ) (p : ℚ → Bool) :
    (pySorted xs).countP p = xs.countP p :=
  (List.perm_insertionSort _ xs).countP_eq p

theorem rangeStep_length (stop step : ℕ) :
    (rangeStep stop step).length = (stop + step - 1) / step := by
  simp [rangeStep]

theorem volPercentileOf_eq_amended (rets : List ℚ) :
    volPercentileOf rets = volPercentileAmendedSpec rets := by
  unfold volPercentileOf volPercentileAmendedSpec volHistVars
  by_cases h : 600 < rets.length
  · simp only [if_pos h]
    have hstop : 0 < rets.length - 200 := by omega
    have hlenS : 0 < ((rangeStep (rets.length - 200) 50).map
        (fun i => popVar ((rets.drop i).take 200))).length := by
      rw [List.length_map, rangeStep_length]
      exact Nat.div_pos (by omega) (by omega)
    have hne : ((rangeStep (rets.length - 200) 50).map
        (fun i => popVar ((rets.drop i).take 200))).isEmpty = false := by
      cases hE : (rangeStep (rets.length - 200) 50).map
          (fun i => popVar ((rets.drop i).take 200)) with
      | nil => rw [hE] at hlenS; cases hlenS
      | cons a l => rfl
    rw [hne]
    simp only [Bool.false_eq_true, if_false, searchsortedRight, countP_pySorted]
  · simp only [if_neg h, List.isEmpty_nil, if_true]

/-- C6 (amended).  For every feature-engine state, instrument and scale,
the snapshot field vol_percentile equals the percentile rank
(right-sided insertion index over sample count) of the current return
stdev among rolling 200-return stdev samples taken every 50 returns
across the full return window whenever that window holds more than 600
returns, and equals the 0.5 default otherwise. -/
theorem C6_vol_percentile_amended (e : Engine) (sym : Symbol) (sc : Scale) :
    (Engine.snapshot e sym sc).volPercentile
      = volPercentileAmendedSpec (e.getScaleState sym sc).rets.values := by
  rw [snapshot_volPercentile]
  exact volPercentileOf_eq_amended _

/-- A stored return window holding exactly 600 returns: 599 zero returns
followed by one return of 1200 (reachable by 599 trades at a constant
price and one jump). -/
def ceRets : List ℚ := List.replicate 599 0 ++ [1200]

def ceScaleState : ScaleState :=
  ⟨RingBuffer.empty 2000, ⟨2000, ceRets⟩, RingBuffer.empty 2000,
    RingBuffer.empty 2000, 0, some 100⟩

def ceEngine : Engine :=
  ⟨DEFAULT_SCALES,
    fun s n => if s = Symbol.BTC ∧ n = nmMinor then some ceScaleState else none,
    fun _ => none, fun _ => none, fun _ => 0⟩

theorem ceRets_length : ceRets.length = 600 := by
  unfold ceRets
  rw [List.length_append, List.length_replicate]
  rfl

theorem popVar_replicate_zero (n : ℕ) : popVar (List.replicate n (0 : ℚ)) = 0 := by
  cases n with
  | zero => rfl
  | succ m =>
    simp [popVar, npMean, List.sum_replicate, List.map_replicate]

theorem ceEngine_state :
    ceEngine.getScaleState Symbol.BTC minorScale = ceScaleState := by
  simp [Engine.getScaleState, ceEngine, minorScale]

theorem ce_window (i : ℕ) (h : i ≤ 350) :
    (ceRets.drop i).take 200 = List.replicate 200 (0 : ℚ) := by
  unfold ceRets
  rw [List.drop_append_eq_append_drop, List.drop_replicate, List.length_replicate,
    List.take_append_eq_append_take, List.take_replicate, List.length_replicate]
  have h1 : min 200 (599 - i) = 200 := by omega
  have h2 : i - 599 = 0 := by omega
  have h3 : 200 - (599 - i) = 0 := by omega
  rw [h1, h2, h3]
  simp

theorem ce_claim_value : volPercentileClaimSpec ceRets = 1 := by
  unfold volPercentileClaimSpec
  rw [ceRets_length]
  simp only [le_refl, if_true]
  have hS : rangeStep (600 - 200) 50 = [0, 50, 100, 150, 200, 250, 300, 350] := by decide
  rw [hS]
  have hmap : ([0, 50, 100, 150, 200, 250, 300, 350].map
      (fun i => popVar ((ceRets.drop i).take 200))) = List.replicate 8 0 := by
    simp only [List.map_cons, List.map_nil]
    rw [ce_window 0 (by omega), ce_window 50 (by omega), ce_window 100 (by omega),
      ce_window 150 (by omega), ce_window 200 (by omega), ce_window 250 (by omega),
      ce_window 300 (by omega), ce_window 350 (by omega), popVar_replicate_zero]
    rfl
  rw [hmap]
  have hcount : (List.replicate 8 (0 : ℚ)).countP
      (fun v => decide (v ≤ sampleVar ceRets)) = 8 := by
    rw [List.countP_eq_length.mpr, List.length_replicate]
    intro a ha
    rw [List.eq_of_mem_replicate ha]
    exact decide_eq_true (sampleVar_nonneg ceRets)
  rw [hcount, List.length_replicate]
  norm_num

/-- C6 counterexample: at a feature-engine state whose minor-scale return
window holds exactly 600 returns (599 zeros then 1200), the snapshot
field vol_percentile is the 0.5 default, while the claim's formula (which
activates at 600 returns already) yields 1. -/
theorem C6_vol_percentile_boundary_counterexample :
    (Engine.snapshot ceEngine Symbol.BTC minorScale).volPercentile = 1 / 2 ∧
    volPercentileClaimSpec ((ceEngine.getScaleState Symbol.BTC minorScale).rets.values) = 1 ∧
    ((1 : ℚ) / 2) ≠ 1 := by
  refine ⟨?_, ?_, by norm_num⟩
  · rw [snapshot_volPercentile, ceEngine_state]
    show volPercentileOf ceRets = 1 / 2
    unfold volPercentileOf volHistVars
    rw [ceRets_length]
    norm_num
  · rw [ceEngine_state]
    exact ce_claim_value

theorem update_other_symbol (e : Engine) (ev : Event) (sym : Symbol)
    (h : ev.symbol ≠ sym) :
    (∀ n, (e.update ev).scaleStates sym n = e.scaleStates sym n) ∧
    (e.update ev).derivs sym = e.derivs sym ∧
    (e.update ev).lastBook sym = e.lastBook sym := by
  cases ev with
  | mk ts recvTs symbol venue meta data =>
    have h2 : sym ≠ symbol := fun hc => h hc.symm
    cases data with
    | TradePrint p q side =>
      refine ⟨fun n => ?_, rfl, rfl⟩
      exact trFold_list_other_symbol symbol p q (sideSign side) e.scales
        e.scaleStates sym n h2
    | BookDelta bids asks dn =>
      exact ⟨fun n => rfl, rfl, by simp [Engine.update, Engine.updateBook, h2]⟩
    | FundingTick r o =>
      exact ⟨fun n => rfl, by simp [Engine.update, Engine.updateFunding, h2], rfl⟩
    | OITick x =>
      exact ⟨fun n => rfl, by simp [Engine.update, Engine.updateOi, h2], rfl⟩
    | BasisTick b t =>
      exact ⟨fun n => rfl, by simp [Engine.update, Engine.updateBasis, h2], rfl⟩
    | LiquidationSnapshot bands => exact ⟨fun n => rfl, rfl, rfl⟩
    | OnchainSnapshot ms => exact ⟨fun n => rfl, rfl, rfl⟩
    | MacroSnapshot ms => exact ⟨fun n => rfl, rfl, rfl⟩

theorem processAll_other_symbol (e : Engine) (evs : List Event) (sym : Symbol)
    (h : ∀ ev ∈ evs, ev.symbol ≠ sym) :
    (∀ n, (e.processAll evs).scaleStates sym n = e.scaleStates sym n) ∧
    (e.processAll evs).derivs sym = e.derivs sym ∧
    (e.processAll evs).lastBook sym = e.lastBook sym := by
  induction evs generalizing e with
  | nil => exact ⟨fun n => rfl, rfl, rfl⟩
  | cons ev tl ih =>
    have hhd := update_other_symbol e ev sym (h ev (List.mem_cons_self ev tl))
    have htl := ih (e.update ev) fun x hx => h x (List.mem_cons_of_mem ev hx)
    exact ⟨fun n => (htl.1 n).trans (hhd.1 n),
      htl.2.1.trans hhd.2.1, htl.2.2.trans hhd.2.2⟩

theorem snapshot_fresh (e : Engine) (sym : Symbol) (sc : Scale)
    (h1 : e.scaleStates sym sc.name = none)
    (h2 : e.derivs sym = none)
    (h3 : e.lastBook sym = none) :
    (e.snapshot sym sc).nTrades = 0 ∧ (e.snapshot sym sc).lastPrice = none ∧
    (e.snapshot sym sc).retSd = 0 ∧ (e.snapshot sym sc).directionalStrength = 0 ∧
    (e.snapshot sym sc).meanReversionScore = 0 ∧ (e.snapshot sym sc).cvdSlope = 0 ∧
    (e.snapshot sym sc).progressSigma = 0 ∧ (e.snapshot sym sc).volMult = 1 ∧
    (e.snapshot sym sc).tailRisk = 0 ∧ (e.snapshot sym sc).volPercentile = 1 / 2 ∧
    (e.snapshot sym sc).basisPercentile = 1 / 2 ∧ (e.snapshot sym sc).fundingZ = 0 ∧
    (e.snapshot sym sc).oiZ = 0 ∧ (e.snapshot sym sc).basisZ = 0 ∧
    (e.snapshot sym sc).bookImbalance = 0 := by
  refine ⟨?_, ?_, ?_, ?_, ?_, ?_, ?_, ?_, ?_, ?_, ?_, ?_, ?_, ?_, ?_⟩ <;>
    simp [Engine.snapshot, Engine.getScaleState, Engine.getDerivState, h1, h2, h3,
      freshScaleState, freshDerivState, RingBuffer.empty, RingBuffer.values,
      stdevR, pyMean, mrScoreOf, volPercentileOf, volHistVars, cvdSlopeOf,
      basisPercentileOf, bookImbalanceOf, zscoreR, Real.exp_zero]

/-- C10.  For every instrument and scale for which the feature engine has
processed no events (arbitrary events of other instruments are allowed),
snapshot(instrument, scale) returns the guarded defaults: n_trades = 0,
last_price = None, ret_sd = 0, directional_strength = 0,
mean_reversion_score = 0, cvd_slope = 0, progress_sigma = 0,
vol_mult = 1.0, tail_risk = 0, vol_percentile = 0.5,
basis_percentile = 0.5, funding_z = oi_z = basis_z = 0 and
book_imbalance = 0; every division is epsilon-guarded so the computation
is total. -/
theorem C10_fresh_snapshot_defaults (scales : List Scale) (evs : List Event)
    (sym : Symbol) (sc : Scale) (h : ∀ ev ∈ evs, ev.symbol ≠ sym) :
    let snap := ((Engine.create scales).processAll evs).snapshot sym sc
    snap.nTrades = 0 ∧ snap.lastPrice = none ∧ snap.retSd = 0 ∧
    snap.directionalStrength = 0 ∧ snap.meanReversionScore = 0 ∧
    snap.cvdSlope = 0 ∧ snap.progressSigma = 0 ∧ snap.volMult = 1 ∧
    snap.tailRisk = 0 ∧ snap.volPercentile = 1 / 2 ∧
    snap.basisPercentile = 1 / 2 ∧ snap.fundingZ = 0 ∧ snap.oiZ = 0 ∧
    snap.basisZ = 0 ∧ snap.bookImbalance = 0 := by
  obtain ⟨hs, hd, hb⟩ := processAll_other_symbol (Engine.create scales) evs sym h
  exact snapshot_fresh _ sym sc (hs sc.name) hd hb

theorem C10_fresh_snapshot_defaults_witness :
    (∀ ev ∈ [ethTradeEvent], ev.symbol ≠ Symbol.BTC) ∧
    (let snap := ((Engine.create DEFAULT_SCALES).processAll [ethTradeEvent]).snapshot
        Symbol.BTC microScale
     snap.nTrades = 0 ∧ snap.lastPrice = none ∧ snap.retSd = 0 ∧
     snap.directionalStrength = 0 ∧ snap.meanReversionScore = 0 ∧
     snap.cvdSlope = 0 ∧ snap.progressSigma = 0 ∧ snap.volMult = 1 ∧
     snap.tailRisk = 0 ∧ snap.volPercentile = 1 / 2 ∧
     snap.basisPercentile = 1 / 2 ∧ snap.fundingZ = 0 ∧ snap.oiZ = 0 ∧
     snap.basisZ = 0 ∧ snap.bookImbalance = 0) :=
  ⟨by decide, C10_fresh_snapshot_defaults DEFAULT_SCALES [ethTradeEvent]
    Symbol.BTC microScale (by decide)⟩

/-- main.py `make_snapshot_callback`, emission logic of the returned
`on_event`: one closure-level counter `trade_counter` over ALL TradePrint
events of all instruments; the record construction (features, regimes,
cone) is elided and the model keeps the instrument a record is emitted
for (`ev.symbol` of the triggering trade).  Python `%` on a positive
modulus agrees with Nat.mod (`snapshot_every = 0` would raise in Python;
the theorems assume a positive cadence). -/
def cbStep (N : ℕ) (c : ℕ) (ev : Event) : ℕ × Option Symbol :=
  if ev.etype = EventType.TradePrint then
    (c + 1, if (c + 1) % N = 0 then some ev.symbol else none)
  else (c, none)

def cbTrace (N : ℕ) : ℕ → List Event → List (Option Symbol)
  | _, [] => []
  | c, ev :: rest =>
      let r := cbStep N c ev
      r.2 :: cbTrace N r.1 rest

/-- The per-event emission decisions of the callback over an event
sequence, from the fresh counter. -/
def snapshotTrace (evs : List Event) (N : ℕ) : List (Option Symbol) :=
  cbTrace N 0 evs

/-- Modelled from the claim's words: a per-instrument counter, so that a
snapshot for an instrument is emitted exactly when the count of that same
instrument's trades reaches a positive multiple of N as claimed. -/
def piStep (N : ℕ) (cnt : Symbol → ℕ) (ev : Event) : (Symbol → ℕ) × Option Symbol :=
  if ev.etype = EventType.TradePrint then
    let c2 := cnt ev.symbol + 1
    (fun s => if s = ev.symbol then c2 else cnt s,
      if c2 % N = 0 then some ev.symbol else none)
  else (cnt, none)

def piTrace (N : ℕ) : (Symbol → ℕ) → List Event → List (Option Symbol)
  | _, [] => []
  | cnt, ev :: rest =>
      let r := piStep N cnt ev
      r.2 :: piTrace N r.1 rest

def perInstrumentTrace (evs : List Event) (N : ℕ) : List (Option Symbol) :=
  piTrace N (fun _ => 0) evs

/-- C5 counterexample: with cadence N = 2 and the sequence (BTC trade,
ETH trade), the callback emits a snapshot for ETH on the second event
because its single global counter reached 2, although only 1 ETH trade
(not a positive multiple of 2) has been observed; the claimed
per-instrument trigger emits nothing. -/
theorem C5_per_instrument_cadence_counterexample :
    snapshotTrace [btcTradeEvent, ethTradeEvent] 2 = [none, some Symbol.ETH] ∧
    perInstrumentTrace [btcTradeEvent, ethTradeEvent] 2 = [none, none] ∧
    snapshotTrace [btcTradeEvent, ethTradeEvent] 2
      ≠ perInstrumentTrace [btcTradeEvent, ethTradeEvent] 2 := by
  decide

/-- Number of TradePrint events of any instrument in a sequence. -/
def countTrades (evs : List Event) : ℕ :=
  evs.countP (fun e => decide (e.etype = EventType.TradePrint))

theorem cbTrace_get (N : ℕ) (evs : List Event) :
    ∀ (c i : ℕ) (hi : i < evs.length),
    (cbTrace N c evs).get? i =
      some (if (evs.get ⟨i, hi⟩).etype = EventType.TradePrint ∧
              (c + countTrades (evs.take (i + 1))) % N = 0
            then some (evs.get ⟨i, hi⟩).symbol else none) := by
  induction evs with
  | nil => intro c i hi; cases hi
  | cons ev tl ih =>
    intro c i hi
    cases i with
    | zero =>
      show some (cbStep N c ev).2 = _
      by_cases ht : ev.etype = EventType.TradePrint
      · simp [cbStep, ht, countTrades, List.countP_cons]
      · simp [cbStep, ht, countTrades]
    | succ j =>
      have hj : j < tl.length := Nat.lt_of_succ_lt_succ hi
      have step : (cbTrace N c (ev :: tl)).get? (j + 1)
          = (cbTrace N (cbStep N c ev).1 tl).get? j := rfl
      rw [step, ih (cbStep N c ev).1 j hj]
      have hcnt : (cbStep N c ev).1 + countTrades (tl.take (j + 1))
          = c + countTrades ((ev :: tl).take (j + 1 + 1)) := by
        by_cases ht : ev.etype = EventType.TradePrint
        · simp [cbStep, ht, countTrades, List.countP_cons]
          omega
        · simp [cbStep, ht, countTrades, List.countP_cons]
      rw [hcnt]
      rfl

/-- C5 (amended).  With a positive cadence N, a snapshot record is
emitted at position i exactly when event i is a TradePrint and the GLOBAL
number of TradePrint events over all instruments among the first i+1
events is a (positive) multiple of N; the record is emitted for the
instrument of that Nth trade.  Trades of other instruments DO advance the
trigger; non-trade events do not. -/
theorem C5_global_cadence (evs : List Event) (N : ℕ) (hN : 0 < N)
    (i : ℕ) (hi : i < evs.length) :
    (snapshotTrace evs N).get? i =
      some (if (evs.get ⟨i, hi⟩).etype = EventType.TradePrint ∧
              countTrades (evs.take (i + 1)) % N = 0
            then some (evs.get ⟨i, hi⟩).symbol else none) := by
  have h := cbTrace_get N evs 0 i hi
  simpa using h

theorem C5_global_cadence_witness :
    0 < 2 ∧ 1 < [btcTradeEvent, ethTradeEvent].length ∧
    (snapshotTrace [btcTradeEvent, ethTradeEvent] 2).get? 1 =
      some (if ([btcTradeEvent, ethTradeEvent].get ⟨1, by decide⟩).etype
              = EventType.TradePrint ∧
              countTrades ([btcTradeEvent, ethTradeEvent].take 2) % 2 = 0
            then some ([btcTradeEvent, ethTradeEvent].get ⟨1, by decide⟩).symbol
            else none) :=
  ⟨by decide, by decide,
    C5_global_cadence [btcTradeEvent, ethTradeEvent] 2 (by decide) 1 (by decide)⟩

/-- Python str.upper() over the characters of a raw symbol. -/
def pyUpperList (s : List Char) : List Char := s.map Char.toUpper

def chBTC : List Char := ['B', 'T', 'C']
def chETH : List Char := ['E', 'T', 'H']

/-- binance_futures.py `_infer_symbol`: first-match classification of the
upper-cased raw symbol, with Symbol.SOL the fall-through default for
every other raw symbol. -/
def inferSymbol (sraw : List Char) : Symbol :=
  let s := pyUpperList sraw
  if chBTC.isPrefixOf s then Symbol.BTC
  else if chETH.isPrefixOf s then Symbol.ETH
  else Symbol.SOL

/-- binance_futures.py SYMBOL_MAP: the explicit symbol table, used
outbound when building the subscription URL (a configured instrument
missing from it would raise KeyError there). -/
def SYMBOL_MAP : List (Symbol × List Char) :=
  [(Symbol.BTC, ['b', 't', 'c', 'u', 's', 'd', 't']),
   (Symbol.ETH, ['e', 't', 'h', 'u', 's', 'd', 't']),
   (Symbol.SOL, ['s', 'o', 'l', 'u', 's', 'd', 't'])]

/-- okx_public.py instrument classification used by `_parse_trade` and
`_parse_books`: first-match on the raw instId with default SOL. -/
def okxClassify (inst : List Char) : Symbol :=
  if chBTC.isPrefixOf inst then Symbol.BTC
  else if chETH.isPrefixOf inst then Symbol.ETH
  else Symbol.SOL

/-- A millisecond epoch timestamp parsed to an aware UTC datetime
(`_ms_to_dt`). -/
def msToDt (ms : ℤ) : DateTime := ⟨true, ms * 1000⟩

/-- Raw aggTrade payload fields used by `_parse_trade`. -/
structure AggTradeMsg where
  s : List Char
  p : ℚ
  q : ℚ
  T : ℤ
  E : Option ℤ
  a : Option ℤ
  m : Bool

def chStreamEvMs : List Char :=
  ['s', 't', 'r', 'e', 'a', 'm', '_', 'e', 'v', 'e', 'n', 't', '_', 't', 'i',
   'm', 'e', '_', 'm', 's']

def chAggId : List Char := ['a', 'g', 'g', '_', 'i', 'd']

/-- binance_futures.py `_parse_trade` (aggTrade): buyer-is-maker means
the aggressor sold; `recv` stands for the `_now_utc()` receive stamp. -/
def parseAggTrade (msg : AggTradeMsg) (recv : DateTime) : Event :=
  { ts := msToDt msg.T
    recvTs := recv
    symbol := inferSymbol msg.s
    venue := Venue.binance
    meta := [(chStreamEvMs, JValue.jnum (((msg.E.getD msg.T) : ℤ) : ℚ)),
             (chAggId, match msg.a with
               | none => JValue.jnull
               | some i => JValue.jnum ((i : ℤ) : ℚ))]
    data := .TradePrint msg.p msg.q (if msg.m then TradeSide.sell else TradeSide.buy) }

/-- Stable ordering used to re-sort bid levels: descending by price. -/
def bidGe (x y : BookLevel) : Prop := y.price ≤ x.price

instance : DecidableRel bidGe := fun x y =>
  inferInstanceAs (Decidable (y.price ≤ x.price))

instance : IsTotal BookLevel bidGe := ⟨fun a b => le_total b.price a.price⟩

instance : IsTrans BookLevel bidGe := ⟨fun _ _ _ hab hbc => le_trans hbc hab⟩

/-- Stable ordering used to re-sort ask levels: ascending by price. -/
def askLe (x y : BookLevel) : Prop := x.price ≤ y.price

instance : DecidableRel askLe := fun x y =>
  inferInstanceAs (Decidable (x.price ≤ y.price))

instance : IsTotal BookLevel askLe := ⟨fun a b => le_total a.price b.price⟩

instance : IsTrans BookLevel askLe := ⟨fun _ _ _ hab hbc => le_trans hab hbc⟩

/-- binance_futures.py `_parse_depth` (and identically okx_public.py
`_parse_books`), bid side: truncate the RAW bid array to its first
depth_n entries, build levels, then stable-sort descending by price
(Python list.sort with reverse=True). -/
def parseDepthBids (braw : List (ℚ × ℚ)) (depthN : ℕ) : List BookLevel :=
  List.insertionSort bidGe ((braw.take depthN).map (fun p => (⟨p.1, p.2⟩ : BookLevel)))

/-- Ask side of `_parse_depth`/`_parse_books`: first depth_n raw entries,
stable-sorted ascending by price. -/
def parseDepthAsks (araw : List (ℚ × ℚ)) (depthN : ℕ) : List BookLevel :=
  List.insertionSort askLe ((araw.take depthN).map (fun p => (⟨p.1, p.2⟩ : BookLevel)))

/-- Raw depthUpdate payload fields used by `_parse_depth`. -/
structure DepthMsg where
  s : List Char
  b : List (ℚ × ℚ)
  a : List (ℚ × ℚ)
  T : ℤ
  E : ℤ

/-- binance_futures.py `_parse_depth`, assembled event (meta bookkeeping
entries omitted). -/
def parseDepth (msg : DepthMsg) (depthN : ℕ) (recv : DateTime) : Event :=
  { ts := msToDt (if msg.T ≠ 0 then msg.T else if msg.E ≠ 0 then msg.E else recv.micros / 1000)
    recvTs := recv
    symbol := inferSymbol msg.s
    venue := Venue.binance
    meta := []
    data := .BookDelta (parseDepthBids msg.b depthN) (parseDepthAsks msg.a depthN) depthN }

/-- Modelled from the claim's words: the top-n levels by price in
descending order, i.e. ALL raw levels sorted descending, then the first
n taken. -/
def topNDesc (braw : List (ℚ × ℚ)) (n : ℕ) : List BookLevel :=
  (List.insertionSort bidGe (braw.map (fun p => (⟨p.1, p.2⟩ : BookLevel)))).take n

/-- 25 raw bid levels in ascending price order (price i, size 1). -/
def ceBids25 : List (ℚ × ℚ) :=
  [(1, 1), (2, 1), (3, 1), (4, 1), (5, 1), (6, 1), (7, 1), (8, 1), (9, 1),
   (10, 1), (11, 1), (12, 1), (13, 1), (14, 1), (15, 1), (16, 1), (17, 1),
   (18, 1), (19, 1), (20, 1), (21, 1), (22, 1), (23, 1), (24, 1), (25, 1)]

/-- C7 counterexample: on a raw message whose 25 bid levels arrive in
ascending price order, `_parse_depth` with depth_n = 20 keeps the FIRST
20 raw levels and only then sorts, so the best five prices (21..25) are
discarded: the result is not the top-20 by price (price 25 is missing). -/
theorem C7_top20_counterexample :
    parseDepthBids ceBids25 20 ≠ topNDesc ceBids25 20 ∧
    (⟨25, 1⟩ : BookLevel) ∈ topNDesc ceBids25 20 ∧
    (⟨25, 1⟩ : BookLevel) ∉ parseDepthBids ceBids25 20 := by
  decide

theorem sorted_ge_nodup_gt (l : List ℚ) (hs : l.Sorted (· ≥ ·)) (hn : l.Nodup) :
    l.Sorted (· > ·) :=
  (hs.and hn).imp fun h => lt_of_le_of_ne h.1 (Ne.symm h.2)

theorem sorted_le_nodup_lt (l : List ℚ) (hs : l.Sorted (· ≤ ·)) (hn : l.Nodup) :
    l.Sorted (· < ·) :=
  (hs.and hn).imp fun h => lt_of_le_of_ne h.1 h.2

theorem parseDepthBids_perm (braw : List (ℚ × ℚ)) (n : ℕ) :
    (parseDepthBids braw n).Perm
      ((braw.take n).map (fun p => (⟨p.1, p.2⟩ : BookLevel))) :=
  List.perm_insertionSort _ _

theorem parseDepthAsks_perm (araw : List (ℚ × ℚ)) (n : ℕ) :
    (parseDepthAsks araw n).Perm
      ((araw.take n).map (fun p => (⟨p.1, p.2⟩ : BookLevel))) :=
  List.perm_insertionSort _ _

theorem parseDepthBids_sorted (braw : List (ℚ × ℚ)) (n : ℕ) :
    ((parseDepthBids braw n).map BookLevel.price).Sorted (· ≥ ·) := by
  have h := List.sorted_insertionSort bidGe
    ((braw.take n).map (fun p => (⟨p.1, p.2⟩ : BookLevel)))
  exact (List.pairwise_map).mpr h

theorem parseDepthAsks_sorted (araw : List (ℚ × ℚ)) (n : ℕ) :
    ((parseDepthAsks araw n).map BookLevel.price).Sorted (· ≤ ·) := by
  have h := List.sorted_insertionSort askLe
    ((araw.take n).map (fun p => (⟨p.1, p.2⟩ : BookLevel)))
  exact (List.pairwise_map).mpr h

theorem parseDepth_prices_perm (braw : List (ℚ × ℚ)) (n : ℕ) :
    ((parseDepthBids braw n).map BookLevel.price).Perm
      ((braw.take n).map Prod.fst) := by
  have h := (parseDepthBids_perm braw n).map BookLevel.price
  rw [List.map_map] at h
  exact h

theorem parseDepthAsks_prices_perm (araw : List (ℚ × ℚ)) (n : ℕ) :
    ((parseDepthAsks araw n).map BookLevel.price).Perm
      ((araw.take n).map Prod.fst) := by
  have h := (parseDepthAsks_perm araw n).map BookLevel.price
  rw [List.map_map] at h
  exact h

/-- C7 (amended).  Parsing a raw depth message whose bids list contains
25 price levels with depth_n = 20 yields exactly 20 bid levels: the
FIRST 20 raw levels (not in general the top-20 by price) re-sorted by
nonincreasing price — strictly descending whenever the kept prices are
pairwise distinct — and the asks are likewise the first 20 raw ask
levels re-sorted ascending, strictly so for pairwise-distinct prices.
For Binance depthUpdate payloads, whose raw sides arrive best-first
sorted, the kept levels coincide with the top-20. -/
theorem C7_truncate_then_sort (msg : DepthMsg) (recv : DateTime)
    (h : msg.b.length = 25) :
    (parseDepth msg 20 recv).data
      = .BookDelta (parseDepthBids msg.b 20) (parseDepthAsks msg.a 20) 20 ∧
    (parseDepthBids msg.b 20).length = 20 ∧
    (parseDepthBids msg.b 20).Perm
      ((msg.b.take 20).map (fun p => (⟨p.1, p.2⟩ : BookLevel))) ∧
    ((parseDepthBids msg.b 20).map BookLevel.price).Sorted (· ≥ ·) ∧
    (((msg.b.take 20).map Prod.fst).Nodup →
      ((parseDepthBids msg.b 20).map BookLevel.price).Sorted (· > ·)) ∧
    ((parseDepthAsks msg.a 20).map BookLevel.price).Sorted (· ≤ ·) ∧
    (((msg.a.take 20).map Prod.fst).Nodup →
      ((parseDepthAsks msg.a 20).map BookLevel.price).Sorted (· < ·)) := by
  refine ⟨rfl, ?_, parseDepthBids_perm msg.b 20, parseDepthBids_sorted msg.b 20,
    ?_, parseDepthAsks_sorted msg.a 20, ?_⟩
  · rw [(parseDepthBids_perm msg.b 20).length_eq, List.length_map,
      List.length_take, h]
    decide
  · intro hn
    exact sorted_ge_nodup_gt _ (parseDepthBids_sorted msg.b 20)
      (((parseDepth_prices_perm msg.b 20).nodup_iff).mpr hn)
  · intro hn
    exact sorted_le_nodup_lt _ (parseDepthAsks_sorted msg.a 20)
      (((parseDepthAsks_prices_perm msg.a 20).nodup_iff).mpr hn)

def ceDepthMsg : DepthMsg :=
  ⟨['B', 'T', 'C', 'U', 'S', 'D', 'T'], ceBids25, [], 1700000000000, 1700000000000⟩

theorem C7_truncate_then_sort_witness :
    ceDepthMsg.b.length = 25 ∧
    ((parseDepth ceDepthMsg 20 ⟨true, 0⟩).data
      = .BookDelta (parseDepthBids ceDepthMsg.b 20) (parseDepthAsks ceDepthMsg.a 20) 20 ∧
    (parseDepthBids ceDepthMsg.b 20).length = 20 ∧
    (parseDepthBids ceDepthMsg.b 20).Perm
      ((ceDepthMsg.b.take 20).map (fun p => (⟨p.1, p.2⟩ : BookLevel))) ∧
    ((parseDepthBids ceDepthMsg.b 20).map BookLevel.price).Sorted (· ≥ ·) ∧
    (((ceDepthMsg.b.take 20).map Prod.fst).Nodup →
      ((parseDepthBids ceDepthMsg.b 20).map BookLevel.price).Sorted (· > ·)) ∧
    ((parseDepthAsks ceDepthMsg.a 20).map BookLevel.price).Sorted (· ≤ ·) ∧
    (((ceDepthMsg.a.take 20).map Prod.fst).Nodup →
      ((parseDepthAsks ceDepthMsg.a 20).map BookLevel.price).Sorted (· < ·))) :=
  ⟨by decide, C7_truncate_then_sort ceDepthMsg ⟨true, 0⟩ (by decide)⟩

def chDOGE : List Char := ['D', 'O', 'G', 'E', 'U', 'S', 'D', 'T']

def dogeMsg : AggTradeMsg := ⟨chDOGE, 12, 3, 1700000000000, none, none, false⟩

/-- C8 counterexample: the raw symbol DOGEUSDT is in no venue symbol
table, yet `_parse_trade` produces a TradePrint for it, silently mapped
to the default instrument SOL — no configuration error is raised. -/
theorem C8_unmapped_symbol_counterexample :
    chDOGE ∉ SYMBOL_MAP.map Prod.snd ∧
    pyUpperList chDOGE ∉ SYMBOL_MAP.map Prod.snd ∧
    (parseAggTrade dogeMsg ⟨true, 0⟩).symbol = Symbol.SOL ∧
    (parseAggTrade dogeMsg ⟨true, 0⟩).etype = EventType.TradePrint := by
  decide

/-- C8 (amended).  Inbound raw-symbol normalization never fails and never
consults the explicit symbol table: `_infer_symbol` (and the okx instId
classification) is a total first-match classification — BTC-titled
symbols map to BTC, else ETH-titled to ETH, and EVERY other raw symbol is
silently mapped to the default instrument SOL — and `_parse_trade` emits
its event under that inferred instrument.  (The explicit tables are used
only outbound, over configured instruments, when building subscription
requests.) -/
theorem C8_first_match_classification (s : List Char) (msg : AggTradeMsg)
    (recv : DateTime) :
    (parseAggTrade msg recv).symbol = inferSymbol msg.s ∧
    (inferSymbol s = Symbol.BTC ↔ chBTC.isPrefixOf (pyUpperList s) = true) ∧
    (inferSymbol s = Symbol.ETH ↔
      (chBTC.isPrefixOf (pyUpperList s) = false ∧
        chETH.isPrefixOf (pyUpperList s) = true)) ∧
    (inferSymbol s = Symbol.SOL ↔
      (chBTC.isPrefixOf (pyUpperList s) = false ∧
        chETH.isPrefixOf (pyUpperList s) = false)) ∧
    (okxClassify s = Symbol.SOL ↔
      (chBTC.isPrefixOf s = false ∧ chETH.isPrefixOf s = false)) := by
  refine ⟨rfl, ?_, ?_, ?_, ?_⟩ <;>
    first
    | (cases hb : chBTC.isPrefixOf (pyUpperList s) <;>
        cases he : chETH.isPrefixOf (pyUpperList s) <;>
        simp [inferSymbol, hb, he])
    | (cases hb : chBTC.isPrefixOf s <;> cases he : chETH.isPrefixOf s <;>
        simp [okxClassify, hb, he])

/-- Reconnect-loop configuration: reconnect_backoff_s and max_backoff_s
(defaults 1.0 and 30.0 in both feed dataclasses). -/
structure BackoffCfg where
  init : ℚ
  maxB : ℚ

/-- `min(self.max_backoff_s, backoff * 2)`, the update in both except
arms. -/
def capDouble (c : BackoffCfg) (b : ℚ) : ℚ := min c.maxB (2 * b)

/-- Outcome of one iteration of binance_futures.py `_ws_loop`'s while
body: the connect call raised; or connect succeeded (resetting the
backoff) and the message processing later raised; or the stream ended
without an exception. -/
inductive BinanceOutcome
| connFail
| procFail
| graceful

/-- Outcome of one iteration of okx_public.py `events`' while body; the
subscribe request sits between the successful connect and the backoff
reset, so it can fail with the backoff still un-reset. -/
inductive OkxOutcome
| connFail
| subFail
| procFail
| graceful

/-- One iteration of `_ws_loop` (binance_futures.py lines 197-221): the
new backoff and the wait performed by the except arm, if any. -/
def binanceStep (c : BackoffCfg) (b : ℚ) : BinanceOutcome → ℚ × Option ℚ
  | .connFail => (capDouble c b, some b)
  | .procFail => (capDouble c c.init, some c.init)
  | .graceful => (c.init, none)

/-- One iteration of the OKX reconnect loop (okx_public.py lines
100-127): the reset `backoff = self.reconnect_backoff_s` runs only AFTER
`_subscribe` returns, so a subscribe failure sleeps and doubles the
un-reset backoff. -/
def okxStep (c : BackoffCfg) (b : ℚ) : OkxOutcome → ℚ × Option ℚ
  | .connFail => (capDouble c b, some b)
  | .subFail => (capDouble c b, some b)
  | .procFail => (capDouble c c.init, some c.init)
  | .graceful => (c.init, none)

/-- Modelled from the claim's words: the backoff is reset to its initial
value immediately after one successful connection, before any further
failure is handled — so in this machine even a subscribe failure (whose
connection succeeded) waits and doubles from the reset value. -/
def okxStepClaim (c : BackoffCfg) (b : ℚ) : OkxOutcome → ℚ × Option ℚ
  | .connFail => (capDouble c b, some b)
  | .subFail => (capDouble c c.init, some c.init)
  | .procFail => (capDouble c c.init, some c.init)
  | .graceful => (c.init, none)

/-- The sequence of waits performed over a run of loop iterations. -/
def runWaits {o : Type} (step : ℚ → o → ℚ × Option ℚ) : ℚ → List o → List ℚ
  | _, [] => []
  | b, x :: xs =>
      let r := step b x
      (match r.2 with | some w => [w] | none => []) ++ runWaits step r.1 xs

/-- C4 counterexample (OKX loop, defaults init = 1, max = 30): after one
connect failure (wait 1, backoff 2) the next iteration connects
successfully but fails in the subscribe step; the code waits the un-reset
backoff 2, while the claim — reset to the initial value after one
successful connection, before any further failure is handled — predicts
a wait of 1. -/
theorem C4_subscribe_failure_counterexample :
    runWaits (okxStep ⟨1, 30⟩) 1 [OkxOutcome.connFail, OkxOutcome.subFail] = [1, 2] ∧
    runWaits (okxStepClaim ⟨1, 30⟩) 1 [OkxOutcome.connFail, OkxOutcome.subFail] = [1, 1] ∧
    ([1, 2] : List ℚ) ≠ [1, 1] := by
  refine ⟨?_, ?_, ?_⟩
  · show [(1 : ℚ)] ++ [min 30 (2 * 1)] ++ [] = [1, 2]
    norm_num
  · show [(1 : ℚ)] ++ [(1 : ℚ)] ++ [] = [1, 1]
    norm_num
  · intro hc
    have := List.head_eq_of_cons_eq (List.tail_eq_of_cons_eq hc)
    norm_num at this

/-- The waits of k consecutive connect failures from backoff b. -/
def connFailWaits (c : BackoffCfg) : ℕ → ℚ → List ℚ
  | 0, _ => []
  | k + 1, b => b :: connFailWaits c k (capDouble c b)

theorem runWaits_binance_connFail (c : BackoffCfg) (k : ℕ) (b : ℚ) :
    runWaits (binanceStep c) b (List.replicate k BinanceOutcome.connFail)
      = connFailWaits c k b := by
  induction k generalizing b with
  | zero => rfl
  | succ n ih => simp [List.replicate_succ, runWaits, binanceStep, connFailWaits, ih]

theorem runWaits_okx_connFail (c : BackoffCfg) (k : ℕ) (b : ℚ) :
    runWaits (okxStep c) b (List.replicate k OkxOutcome.connFail)
      = connFailWaits c k b := by
  induction k generalizing b with
  | zero => rfl
  | succ n ih => simp [List.replicate_succ, runWaits, okxStep, connFailWaits, ih]

theorem connFailWaits_pow (c : BackoffCfg) (hM : 0 ≤ c.maxB) :
    ∀ (k : ℕ) (b : ℚ), 0 ≤ b → b ≤ c.maxB →
    connFailWaits c k b = (List.range k).map (fun i => min c.maxB (b * 2 ^ i)) := by
  intro k
  induction k with
  | zero => intro b _ _; rfl
  | succ n ih =>
    intro b hb0 hbM
    have hb0M : (0 : ℚ) ≤ 2 * b := by linarith
    have hcd0 : 0 ≤ capDouble c b := le_min hM hb0M
    have hcdM : capDouble c b ≤ c.maxB := min_le_left _ _
    show b :: connFailWaits c n (capDouble c b) = _
    rw [ih (capDouble c b) hcd0 hcdM, List.range_succ_eq_map, List.map_cons,
      List.map_map]
    have hhead : min c.maxB (b * 2 ^ 0) = b := by
      rw [pow_zero, mul_one]
      exact min_eq_right hbM
    rw [hhead]
    congr 1
    apply List.map_congr_left
    intro i _
    show min c.maxB (capDouble c b * 2 ^ i) = min c.maxB (b * 2 ^ (i + 1))
    have hpow : (0 : ℚ) ≤ 2 ^ i := by positivity
    have h1p : (1 : ℚ) ≤ 2 ^ i := by
      calc (1 : ℚ) = 1 ^ i := (one_pow i).symm
        _ ≤ 2 ^ i := pow_le_pow_left (by norm_num) (by norm_num) i
    rw [capDouble, min_mul_of_nonneg _ _ hpow, ← min_assoc]
    have hMM : min c.maxB (c.maxB * 2 ^ i) = c.maxB :=
      min_eq_left (le_mul_of_one_le_right hM h1p)
    rw [hMM]
    have harg : 2 * b * 2 ^ i = b * 2 ^ (i + 1) := by ring
    rw [harg]

/-- C4 (amended).  In both push-stream reconnect loops, every consecutive
connection failure waits the current backoff, which then doubles capped
at max_backoff_s — so the i-th consecutive connect failure from a
freshly-reset loop waits min(max_backoff_s, reconnect_backoff_s * 2^i) —
and a processing failure after the reset point waits the reset initial
value; the reset happens right after connect in the Binance loop but only
after the subscribe call returns in the OKX loop, whose subscribe-step
failure therefore waits and doubles the un-reset backoff. -/
theorem C4_backoff_doubling (c : BackoffCfg) (h0 : 0 ≤ c.init)
    (h1 : c.init ≤ c.maxB) :
    (∀ k, runWaits (binanceStep c) c.init (List.replicate k BinanceOutcome.connFail)
        = (List.range k).map (fun i => min c.maxB (c.init * 2 ^ i))) ∧
    (∀ k, runWaits (okxStep c) c.init (List.replicate k OkxOutcome.connFail)
        = (List.range k).map (fun i => min c.maxB (c.init * 2 ^ i))) ∧
    (∀ b, binanceStep c b BinanceOutcome.procFail
        = (capDouble c c.init, some c.init)) ∧
    (∀ b, okxStep c b OkxOutcome.procFail = (capDouble c c.init, some c.init)) ∧
    (∀ b, okxStep c b OkxOutcome.subFail = (capDouble c b, some b)) := by
  have hM : 0 ≤ c.maxB := le_trans h0 h1
  refine ⟨fun k => ?_, fun k => ?_, fun b => rfl, fun b => rfl, fun b => rfl⟩
  · rw [runWaits_binance_connFail, connFailWaits_pow c hM k c.init h0 h1]
  · rw [runWaits_okx_connFail, connFailWaits_pow c hM k c.init h0 h1]

theorem C4_backoff_doubling_witness :
    (0 : ℚ) ≤ 1 ∧ (1 : ℚ) ≤ 30 ∧
    ((∀ k, runWaits (binanceStep ⟨1, 30⟩) 1 (List.replicate k BinanceOutcome.connFail)
        = (List.range k).map (fun i => min 30 (1 * 2 ^ i))) ∧
    (∀ k, runWaits (okxStep ⟨1, 30⟩) 1 (List.replicate k OkxOutcome.connFail)
        = (List.range k).map (fun i => min 30 (1 * 2 ^ i))) ∧
    (∀ b, binanceStep ⟨1, 30⟩ b BinanceOutcome.procFail
        = (capDouble ⟨1, 30⟩ 1, some 1)) ∧
    (∀ b, okxStep ⟨1, 30⟩ b OkxOutcome.procFail = (capDouble ⟨1, 30⟩ 1, some 1)) ∧
    (∀ b, okxStep ⟨1, 30⟩ b OkxOutcome.subFail = (capDouble ⟨1, 30⟩ b, some b))) :=
  ⟨by norm_num, by norm_num, C4_backoff_doubling ⟨1, 30⟩ (by norm_num) (by norm_num)⟩

/-- np.gradient(U, x) entry at index i (second-order accurate central
differences on a possibly non-uniform grid, one-sided at the ends);
out-of-range reads default to 0, matching nothing in numpy — the
simulation theorems assume well-formed inputs (matching lengths ≥ 2 and
strictly increasing grid), exactly where numpy would not raise. -/
def npGradientAt (U x : List ℚ) (n i : ℕ) : ℚ :=
  if i = 0 then (U.getD 1 0 - U.getD 0 0) / (x.getD 1 0 - x.getD 0 0)
  else if i = n - 1 then
    (U.getD (n - 1) 0 - U.getD (n - 2) 0) / (x.getD (n - 1) 0 - x.getD (n - 2) 0)
  else
    let hs := x.getD i 0 - x.getD (i - 1) 0
    let hd := x.getD (i + 1) 0 - x.getD i 0
    (hs ^ 2 * U.getD (i + 1) 0 + (hd ^ 2 - hs ^ 2) * U.getD i 0
        - hd ^ 2 * U.getD (i - 1) 0)
      / (hs * hd * (hd + hs))

/-- np.gradient(U, grid) as used by simulate_paths. -/
def npGradient (U x : List ℚ) : List ℚ :=
  (List.range U.length).map (npGradientAt U x U.length)

/-- np.interp(p, xp, fp) for an increasing xp: clamp to the end values
outside the grid, linear interpolation on the segment containing p. -/
def npInterp (p : ℚ) : List ℚ → List ℚ → ℚ
  | x1 :: x2 :: xs, f1 :: f2 :: fs =>
      if p ≤ x1 then f1
      else if p ≤ x2 then f1 + (f2 - f1) * (p - x1) / (x2 - x1)
      else npInterp p (x2 :: xs) (f2 :: fs)
  | _ :: [], f1 :: _ => f1
  | _, _ => 0

/-- forecast/trajectory.py simulate_paths, per-path recursion: position
and velocity of path k at step t.  The Gaussian draws are supplied as a
unit-noise table `gauss`; the sampled noise is `sigma_local * gauss k t`
(numpy's Generator.normal(0, sigma) scales a unit normal by sigma, so
sigma = 0 gives exactly zero).  `V[t+1] = alpha*V[t] - beta*gradU(P[t]) +
gamma*F_flow + eps`, `P[t+1] = P[t] + V[t+1]`. -/
def simVP (p0 v0 Fflow sigma alpha beta gamma : ℚ) (grid gradU : List ℚ)
    (gauss : ℕ → ℕ → ℚ) (k : ℕ) : ℕ → ℚ × ℚ
  | 0 => (p0, v0)
  | t + 1 =>
      let pv := simVP p0 v0 Fflow sigma alpha beta gamma grid gradU gauss k t
      let v2 := alpha * pv.2 - beta * npInterp pv.1 grid gradU
        + gamma * Fflow + sigma * gauss k t
      (pv.1 + v2, v2)

/-- forecast/trajectory.py simulate_paths: the (n_paths, steps+1) path
matrix, entry (k, t). -/
def simulate_paths (p0 v0 : ℚ) (grid U : List ℚ)
    (Fflow sigma alpha beta gamma : ℚ) (steps npaths : ℕ)
    (gauss : ℕ → ℕ → ℚ) : Fin npaths → Fin (steps + 1) → ℚ :=
  fun k t =>
    (simVP p0 v0 Fflow sigma alpha beta gamma grid (npGradient U grid) gauss k t).1

theorem getD_zero_of_all_zero (U : List ℚ) (h : ∀ u ∈ U, u = 0) (j : ℕ) :
    U.getD j 0 = 0 := by
  by_cases hj : j < U.length
  · rw [List.getD_eq_getElem _ _ hj]
    exact h _ (U.getElem_mem hj)
  · rw [List.getD_eq_default _ _ (Nat.le_of_not_lt hj)]

theorem npGradient_zero (U x : List ℚ) (h : ∀ u ∈ U, u = 0) :
    ∀ z ∈ npGradient U x, z = 0 := by
  intro z hz
  obtain ⟨i, _, hzi⟩ := List.mem_map.mp hz
  subst hzi
  unfold npGradientAt
  have hU := getD_zero_of_all_zero U h
  split
  · rw [hU, hU, sub_zero, zero_div]
  · split
    · rw [hU, hU, sub_zero, zero_div]
    · rw [hU, hU, hU]
      ring_nf

theorem npInterp_zero (p : ℚ) (xp fp : List ℚ) (h : ∀ f ∈ fp, f = 0) :
    npInterp p xp fp = 0 := by
  induction xp generalizing fp with
  | nil => cases fp <;> rfl
  | cons x1 xtl ih =>
    cases xtl with
    | nil =>
      cases fp with
      | nil => rfl
      | cons f1 ftl => exact h f1 (List.mem_cons_self f1 ftl)
    | cons x2 xs =>
      cases fp with
      | nil => rfl
      | cons f1 ftl =>
        cases ftl with
        | nil => rfl
        | cons f2 fs =>
          have hf1 : f1 = 0 := h f1 (List.mem_cons_self _ _)
          have hf2 : f2 = 0 := h f2 (List.mem_cons_of_mem _ (List.mem_cons_self _ _))
          show (if p ≤ x1 then f1
            else if p ≤ x2 then f1 + (f2 - f1) * (p - x1) / (x2 - x1)
            else npInterp p (x2 :: xs) (f2 :: fs)) = 0
          rw [hf1, hf2]
          have htail : npInterp p (x2 :: xs) ((0 : ℚ) :: fs) = 0 := by
            apply ih
            intro f hf
            rcases List.mem_cons.mp hf with hf0 | hfs
            · exact hf0
            · exact h f (List.mem_cons_of_mem _ (List.mem_cons_of_mem _ hfs))
          split
          · rfl
          · split
            · ring_nf
            · exact htail

/-- C9.  simulate_paths with initial velocity 0, an identically-zero
potential over a well-formed grid, zero flow force and zero noise scale
(n_paths = 2000, steps = 250) returns a path matrix in which every path
equals p0 at every one of the 251 time indices, for every seed (noise
table) and every alpha, beta, gamma. -/
theorem C9_zero_field_paths_constant (p0 : ℚ) (grid U : List ℚ)
    (alpha beta gamma : ℚ) (gauss : ℕ → ℕ → ℚ)
    (hlen : U.length = grid.length) (hU : ∀ u ∈ U, u = 0)
    (hgrid : grid.Sorted (· < ·)) (hgrid2 : 2 ≤ grid.length) :
    ∀ (k : Fin 2000) (t : Fin 251),
      simulate_paths p0 0 grid U 0 0 alpha beta gamma 250 2000 gauss k t = p0 := by
  intro k t
  show (simVP p0 0 0 0 alpha beta gamma grid (npGradient U grid) gauss k t).1 = p0
  have hG := npGradient_zero U grid hU
  have key : ∀ n : ℕ,
      simVP p0 0 0 0 alpha beta gamma grid (npGradient U grid) gauss k n = (p0, 0) := by
    intro n
    induction n with
    | zero => rfl
    | succ m ihm =>
      have hi : npInterp p0 grid (npGradient U grid) = 0 :=
        npInterp_zero p0 grid (npGradient U grid) hG
      simp only [simVP, ihm, hi]
      norm_num
  rw [key t]

theorem C9_zero_field_paths_constant_witness :
    ([(0 : ℚ), 0, 0].length = [(0 : ℚ), 1, 2].length) ∧
    (∀ u ∈ [(0 : ℚ), 0, 0], u = 0) ∧
    ([(0 : ℚ), 1, 2].Sorted (· < ·)) ∧ 2 ≤ [(0 : ℚ), 1, 2].length ∧
    (∀ (k : Fin 2000) (t : Fin 251),
      simulate_paths 7 0 [(0 : ℚ), 1, 2] [(0 : ℚ), 0, 0] 0 0 (9 / 10) (3 / 20)
        (1 / 4) 250 2000 (fun _ _ => 5) k t = 7) :=
  ⟨by decide, by decide, by decide, by decide,
    C9_zero_field_paths_constant 7 [(0 : ℚ), 1, 2] [(0 : ℚ), 0, 0] (9 / 10)
      (3 / 20) (1 / 4) (fun _ _ => 5) (by decide) (by decide) (by decide) (by decide)⟩

def chSOL : List Char := ['S', 'O', 'L']

/-- The string value of a Symbol enum member. -/
def symbolStr : Symbol → List Char
  | .BTC => chBTC
  | .ETH => chETH
  | .SOL => chSOL

/-- The string value of a Venue enum member. -/
def venueStr : Venue → List Char
  | .mock => ['m', 'o', 'c', 'k']
  | .binance => ['b', 'i', 'n', 'a', 'n', 'c', 'e']
  | .coinbase => ['c', 'o', 'i', 'n', 'b', 'a', 's', 'e']
  | .bybit => ['b', 'y', 'b', 'i', 't']
  | .okx => ['o', 'k', 'x']
  | .deribit => ['d', 'e', 'r', 'i', 'b', 'i', 't']
  | .other => ['o', 't', 'h', 'e', 'r']

/-- The string value of an EventType enum member. -/
def etypeStr : EventType → List Char
  | .TradePrint => ['t', 'r', 'a', 'd', 'e', '_', 'p', 'r', 'i', 'n', 't']
  | .BookDelta => ['b', 'o', 'o', 'k', '_', 'd', 'e', 'l', 't', 'a']
  | .FundingTick => ['f', 'u', 'n', 'd', 'i', 'n', 'g', '_', 't', 'i', 'c', 'k']
  | .OITick => ['o', 'i', '_', 't', 'i', 'c', 'k']
  | .BasisTick => ['b', 'a', 's', 'i', 's', '_', 't', 'i', 'c', 'k']
  | .LiquidationSnapshot =>
      ['l', 'i', 'q', 'u', 'i', 'd', 'a', 't', 'i', 'o', 'n', '_',
       's', 'n', 'a', 'p', 's', 'h', 'o', 't']
  | .OnchainSnapshot =>
      ['o', 'n', 'c', 'h', 'a', 'i', 'n', '_', 's', 'n', 'a', 'p', 's', 'h', 'o', 't']
  | .MacroSnapshot =>
      ['m', 'a', 'c', 'r', 'o', '_', 's', 'n', 'a', 'p', 's', 'h', 'o', 't']

/-- The string value of a TradeSide enum member. -/
def sideStr : TradeSide → List Char
  | .buy => ['b', 'u', 'y']
  | .sell => ['s', 'e', 'l', 'l']
  | .unknown => ['u', 'n', 'k', 'n', 'o', 'w', 'n']

def chTs : List Char := ['t', 's']
def chRecvTs : List Char := ['r', 'e', 'c', 'v', '_', 't', 's']
def chSymbolK : List Char := ['s', 'y', 'm', 'b', 'o', 'l']
def chVenueK : List Char := ['v', 'e', 'n', 'u', 'e']
def chEtype : List Char := ['e', 't', 'y', 'p', 'e']
def chMeta : List Char := ['m', 'e', 't', 'a']
def chPrice : List Char := ['p', 'r', 'i', 'c', 'e']
def chSize : List Char := ['s', 'i', 'z', 'e']
def chSide : List Char := ['s', 'i', 'd', 'e']
def chBids : List Char := ['b', 'i', 'd', 's']
def chAsks : List Char := ['a', 's', 'k', 's']
def chDepthN : List Char := ['d', 'e', 'p', 't', 'h', '_', 'n']
def chFundingRate : List Char :=
  ['f', 'u', 'n', 'd', 'i', 'n', 'g', '_', 'r', 'a', 't', 'e']
def chNextFundingTs : List Char :=
  ['n', 'e', 'x', 't', '_', 'f', 'u', 'n', 'd', 'i', 'n', 'g', '_', 't', 's']
def chOpenInterest : List Char :=
  ['o', 'p', 'e', 'n', '_', 'i', 'n', 't', 'e', 'r', 'e', 's', 't']
def chBasis : List Char := ['b', 'a', 's', 'i', 's']
def chBasisType : List Char :=
  ['b', 'a', 's', 'i', 's', '_', 't', 'y', 'p', 'e']
def chBands : List Char := ['b', 'a', 'n', 'd', 's']
def chMetrics : List Char := ['m', 'e', 't', 'r', 'i', 'c', 's']

/-- A BookLevel dumped by pydantic. -/
def levelJ (l : BookLevel) : JValue :=
  .jobj [(chPrice, .jnum l.price), (chSize, .jnum l.size)]

/-- The variant-specific entries of `ev.model_dump()`, flattened at top
level, in field-declaration order.  Datetime-valued fields stay raw
datetime objects in python-mode dumps (`jdt`); str-enum members dump to
their string values. -/
def variantFields : EventData → List (List Char × JValue)
  | .TradePrint p s side =>
      [(chPrice, .jnum p), (chSize, .jnum s), (chSide, .jstr (sideStr side))]
  | .BookDelta bids asks dn =>
      [(chBids, .jarr (bids.map levelJ)), (chAsks, .jarr (asks.map levelJ)),
       (chDepthN, .jnum (dn : ℚ))]
  | .FundingTick r o =>
      [(chFundingRate, .jnum r),
       (chNextFundingTs, match o with | none => .jnull | some dt => .jdt dt)]
  | .OITick x => [(chOpenInterest, .jnum x)]
  | .BasisTick b t => [(chBasis, .jnum b), (chBasisType, .jstr t)]
  | .LiquidationSnapshot bands =>
      [(chBands, .jarr (bands.map (fun p => .jarr [.jnum p.1, .jnum p.2])))]
  | .OnchainSnapshot ms =>
      [(chMetrics, .jobj (ms.map (fun p => (p.1, JValue.jnum p.2))))]
  | .MacroSnapshot ms =>
      [(chMetrics, .jobj (ms.map (fun p => (p.1, JValue.jnum p.2))))]

/-- `ev.model_dump()` in python mode: base fields in declaration order
(ts, recv_ts, symbol, venue, etype, meta), then the subclass fields;
`ts`/`recv_ts` are raw datetimes at this point. -/
def modelDump (ev : Event) : List (List Char × JValue) :=
  [(chTs, .jdt ev.ts), (chRecvTs, .jdt ev.recvTs),
   (chSymbolK, .jstr (symbolStr ev.symbol)),
   (chVenueK, .jstr (venueStr ev.venue)),
   (chEtype, .jstr (etypeStr ev.etype)),
   (chMeta, .jobj ev.meta)]
  ++ variantFields ev.data

/-- recording/jsonl.py `_dt_to_iso`: a naive datetime is tagged UTC, then
isoformat is taken; the ISO string is represented by its parsed content,
which is always aware. -/
def dtToIso (d : DateTime) : DateTime := { d with aware := true }

/-- Python dict assignment `d[k] = v` on an existing key: replace in
place, preserving insertion order. -/
def setField (fs : List (List Char × JValue)) (k : List Char) (v : JValue) :
    List (List Char × JValue) :=
  fs.map (fun kv => if kv.1 = k then (k, v) else kv)

mutual

/-- Whether json.dumps accepts the value: a raw datetime (jdt) anywhere
in the structure raises TypeError; everything else the recorder produces
(null, bool, number, string, list, dict) serializes. -/
def jserOk : JValue → Bool
  | .jnull => true
  | .jbool _ => true
  | .jnum _ => true
  | .jstr _ => true
  | .jdt _ => false
  | .jiso _ => true
  | .jarr xs => jserList xs
  | .jobj fs => jserFields fs

def jserList : List JValue → Bool
  | [] => true
  | x :: xs => jserOk x && jserList xs

def jserFields : List (List Char × JValue) → Bool
  | [] => true
  | kv :: xs => jserOk kv.2 && jserFields xs

end

/-- recording/jsonl.py `JSONLRecorder.write_event`: dump the event,
overwrite ts/recv_ts with their ISO strings, then json.dumps the dict as
one line.  The written line is represented by the dumped JSON value
(their correspondence is one-to-one for the recorder's canonical output);
`none` models json.dumps raising TypeError, which aborts the write with
no line written. -/
def writeEventLine (ev : Event) : Option JValue :=
  let d := modelDump ev
  let d2 := setField (setField d chTs (.jiso (dtToIso ev.ts))) chRecvTs
    (.jiso (dtToIso ev.recvTs))
  if jserFields d2 then some (.jobj d2) else none

/-- A FundingTick with its optional next_funding_ts present, as the
Binance mark-price parser routinely produces. -/
def ceFundingTick : Event :=
  ⟨⟨true, 1700000000000000⟩, ⟨true, 1700000000500000⟩, Symbol.BTC, Venue.binance,
    [], .FundingTick (1 / 10000) (some ⟨true, 1700028800000000⟩)⟩

/-- C3: `write_event` only converts `ts` and `recv_ts` to ISO strings;
for a FundingTick whose `next_funding_ts` is set, the python-mode
`model_dump()` leaves that field a raw datetime, so `json.dumps` raises
TypeError and no line is written — recording such an event cannot
round-trip. -/
theorem C3_write_event_next_funding_ts_fails :
    writeEventLine ceFundingTick = none := rfl

end PB
